import Mathlib

/-!
Verification of the stackathon stack language implementation: value model
and arithmetic (src/types.rs), tokenizer (src/lexer.rs), execution engine
(src/vm.rs) and the binary serialization codec (src/serial.rs, src/types.rs,
src/lexer.rs), embedded shallowly and checked against the specification.

Machine-level conventions of the embedding:
* `i32` values are `Int` with wrap-around arithmetic (`wrap32`), matching
  release-mode Rust; `usize` casts use 64-bit two's complement.
* `f32` payloads are their 32-bit patterns (`Nat`); the IEEE operations the
  code applies to them are parameters collected in a `FloatSem` structure,
  so every theorem quantifying over a `FloatSem` holds for the real IEEE
  semantics in particular.  No claim depends on a float's numeric value.
* Rust `String` is `List Char` (Rust strings hold Unicode scalar values,
  exactly what Lean `Char` is); byte strings are `List Nat`.
* The `print!` side effect is modelled as the list of printed values, in
  order; `Display` of the values the claims print (strings) is the text
  itself.
* Partial functions (panics, the unbounded tokenizer/interpreter loops) are
  modelled with an explicit `panicked` result and a fuel argument.
-/

set_option maxHeartbeats 1000000

namespace Stackathon

/-- Keyword enum from src/types.rs. -/
inductive Keyword where
  | PRINT | TRUE | FALSE | EXIT | LOOP | GATE | DUPLICATE | DROP | SWAP
  | DEPTH | ROT | NROT | OVER | TUCK | PICK | ROLL | CLEAR | TYPE
  | USE | INPUT | STRLEN
deriving DecidableEq

/-- Operation enum from src/types.rs. -/
inductive Operation where
  | Add | Subtract | Multiply | Divide | Equal | NotEqual | Greater | Lesser
  | GreaterEqual | LesserEqual | And | Or | Not | Run
deriving DecidableEq

/-- TokenPosition from src/lexer.rs (usize row/col, 1-based). -/
structure TokenPosition where
  row : Nat
  col : Nat
deriving DecidableEq

mutual
/-- Value enum from src/types.rs.  Float holds the 32-bit pattern. -/
inductive Value where
  | Integer (i : Int)
  | Float (bits : Nat)
  | Boolean (b : Bool)
  | String (s : List Char)
  | Block (body : List Token)
  | Function (name : List Char)
  | Tag (name : List Char)

/-- TokenType enum from src/lexer.rs. -/
inductive TokenType where
  | Literal (v : Value)
  | Op (o : Operation)
  | Keyword (k : Keyword)

/-- Token struct from src/lexer.rs. -/
inductive Token where
  | mk (kind : TokenType) (pos : TokenPosition)
end

/-- Projection: `token.kind`. -/
def Token.kind : Token → TokenType
  | .mk k _ => k

/-- Projection: `token.pos`. -/
def Token.pos : Token → TokenPosition
  | .mk _ p => p

/-- Interface to the host's `f32` semantics.  Values of type `Nat` stand for
the 32-bit patterns.  The interpreter and tokenizer are parametrized by a
`FloatSem`, and theorems about them hold for every instance, hence in
particular for IEEE-754 binary32. -/
structure FloatSem where
  fadd : Nat → Nat → Nat
  fsub : Nat → Nat → Nat
  fmul : Nat → Nat → Nat
  fdiv : Nat → Nat → Nat
  ofInt : Int → Nat
  beq : Nat → Nat → Bool
  pcmp : Nat → Nat → Option Ordering
  ofDecimal : List Char → Nat

/-- A concrete (degenerate) float semantics, used to instantiate theorems at
closed inputs. -/
def trivFloat : FloatSem where
  fadd := fun _ _ => 0
  fsub := fun _ _ => 0
  fmul := fun _ _ => 0
  fdiv := fun _ _ => 0
  ofInt := fun _ => 0
  beq := fun _ _ => false
  pcmp := fun _ _ => none
  ofDecimal := fun _ => 0

/-- Wrap-around `i32` arithmetic (two's complement, release-mode Rust). -/
def wrap32 (x : Int) : Int := (x + 2 ^ 31).emod (2 ^ 32) - 2 ^ 31

/-- Rust `as usize` on an `i32` value (64-bit host): two's complement. -/
def usizeOfI32 (i : Int) : Nat := (i.emod (2 ^ 64)).toNat

/-- Rust release-mode wrapping `usize` subtraction of 1. -/
def usizeSub1 (n : Nat) : Nat := (n + (2 ^ 64 - 1)) % 2 ^ 64

/-- Rust `str::repeat`. -/
def strRepeat (s : List Char) (n : Nat) : List Char := (List.replicate n s).flatten

/-- `impl Add for Value` (src/types.rs:59-71). -/
def valueAdd (F : FloatSem) : Value → Value → Option Value
  | .Float v1, .Float v2 => some (.Float (F.fadd v1 v2))
  | .Float v1, .Integer v2 => some (.Float (F.fadd v1 (F.ofInt v2)))
  | .Integer v1, .Float v2 => some (.Float (F.fadd (F.ofInt v1) v2))
  | .Integer v1, .Integer v2 => some (.Integer (wrap32 (v1 + v2)))
  | .String v1, .String v2 => some (.String (v1 ++ v2))
  | _, _ => none

/-- `impl Sub for Value` (src/types.rs:73-84). -/
def valueSub (F : FloatSem) : Value → Value → Option Value
  | .Float v1, .Float v2 => some (.Float (F.fsub v1 v2))
  | .Float v1, .Integer v2 => some (.Float (F.fsub v1 (F.ofInt v2)))
  | .Integer v1, .Float v2 => some (.Float (F.fsub (F.ofInt v1) v2))
  | .Integer v1, .Integer v2 => some (.Integer (wrap32 (v1 - v2)))
  | _, _ => none

/-- `impl Mul for Value` (src/types.rs:86-98). -/
def valueMul (F : FloatSem) : Value → Value → Option Value
  | .Float v1, .Float v2 => some (.Float (F.fmul v1 v2))
  | .Float v1, .Integer v2 => some (.Float (F.fmul v1 (F.ofInt v2)))
  | .Integer v1, .Float v2 => some (.Float (F.fmul (F.ofInt v1) v2))
  | .Integer v1, .Integer v2 => some (.Integer (wrap32 (v1 * v2)))
  | .String v1, .Integer v2 => some (.String (strRepeat v1 (usizeOfI32 v2)))
  | _, _ => none

/-- `impl Div for Value` (src/types.rs:100-112).  The String/Integer arm is
`v1.chars().nth((v2 as usize) - 1)`: 1-based character indexing. -/
def valueDiv (F : FloatSem) : Value → Value → Option Value
  | .Float v1, .Float v2 => some (.Float (F.fdiv v1 v2))
  | .Float v1, .Integer v2 => some (.Float (F.fdiv v1 (F.ofInt v2)))
  | .Integer v1, .Float v2 => some (.Float (F.fdiv (F.ofInt v1) v2))
  | .Integer v1, .Integer v2 => some (.Float (F.fdiv (F.ofInt v1) (F.ofInt v2)))
  | .String v1, .Integer v2 =>
      match v1.get? (usizeSub1 (usizeOfI32 v2)) with
      | some s => some (.String [s])
      | none => none
  | _, _ => none

/-- `impl PartialEq for Value` (src/types.rs:114-128).  Note there is no
Block/Block arm: it falls into the catch-all `false`. -/
def valueEq (F : FloatSem) : Value → Value → Bool
  | .Float v1, .Float v2 => F.beq v1 v2
  | .Float v1, .Integer v2 => F.beq v1 (F.ofInt v2)
  | .Integer v1, .Float v2 => F.beq (F.ofInt v1) v2
  | .Integer v1, .Integer v2 => v1 = v2
  | .Boolean v1, .Boolean v2 => v1 = v2
  | .String v1, .String v2 => v1 = v2
  | .Function f1, .Function f2 => f1 = f2
  | .Tag t1, .Tag t2 => t1 = t2
  | _, _ => false

/-- `impl Not for Value` (src/types.rs:130-138). -/
def valueNot : Value → Option Value
  | .Boolean b => some (.Boolean !b)
  | _ => none

/-- Lexicographic ordering of Rust strings (byte order on UTF-8 coincides
with scalar-value order). -/
def strCmp : List Char → List Char → Ordering
  | [], [] => .eq
  | [], _ :: _ => .lt
  | _ :: _, [] => .gt
  | a :: as', b :: bs' =>
      match compare a.val b.val with
      | .eq => strCmp as' bs'
      | o => o

/-- `impl PartialOrd for Value` (src/types.rs:140-152). -/
def valuePCmp (F : FloatSem) : Value → Value → Option Ordering
  | .Float v1, .Float v2 => F.pcmp v1 v2
  | .Float v1, .Integer v2 => F.pcmp v1 (F.ofInt v2)
  | .Integer v1, .Float v2 => F.pcmp (F.ofInt v1) v2
  | .Integer v1, .Integer v2 => some (compare v1 v2)
  | .Boolean v1, .Boolean v2 => some (compare v1 v2)
  | .String v1, .String v2 => some (strCmp v1 v2)
  | _, _ => none

/-- Rust `PartialOrd::lt` derived from `partial_cmp`. -/
def valueLt (F : FloatSem) (a b : Value) : Bool := valuePCmp F a b = some .lt

/-- Rust `PartialOrd::le` derived from `partial_cmp`. -/
def valueLe (F : FloatSem) (a b : Value) : Bool :=
  valuePCmp F a b = some .lt || valuePCmp F a b = some .eq

/-- Rust `PartialOrd::gt` derived from `partial_cmp`. -/
def valueGt (F : FloatSem) (a b : Value) : Bool := valuePCmp F a b = some .gt

/-- Rust `PartialOrd::ge` derived from `partial_cmp`. -/
def valueGe (F : FloatSem) (a b : Value) : Bool :=
  valuePCmp F a b = some .gt || valuePCmp F a b = some .eq

/-- Constructor kinds of `Value`, for stating type-level facts. -/
inductive VKind where
  | int | float | bool | str | block | fn | tag
deriving DecidableEq

/-- The kind of a value. -/
def Value.kind : Value → VKind
  | .Integer _ => .int
  | .Float _ => .float
  | .Boolean _ => .bool
  | .String _ => .str
  | .Block _ => .block
  | .Function _ => .fn
  | .Tag _ => .tag

/-- Whether a value is the Function variant. -/
def Value.isFun : Value → Bool
  | .Function _ => true
  | _ => false

/-- RuntimeError from src/vm.rs. -/
inductive RuntimeError where
  | OperatorInvalidValues (pos : TokenPosition) (op : Char)
  | KeywordInvalidValues (pos : TokenPosition) (k : Keyword)
deriving DecidableEq

/-- The function table: `HashMap<String, Vec<Token>>`, modelled as an
association list with at most one entry per key. -/
def FnTable := List (List Char × List Token)

/-- `HashMap::get`. -/
def tblGet : FnTable → List Char → Option (List Token)
  | [], _ => none
  | (k, v) :: rest, name => if k = name then some v else tblGet rest name

/-- `HashMap::contains_key`. -/
def tblContains (t : FnTable) (name : List Char) : Bool := (tblGet t name).isSome

/-- `HashMap::insert` (replaces an existing binding). -/
def tblInsert : FnTable → List Char → List Token → FnTable
  | [], name, v => [(name, v)]
  | (k, w) :: rest, name, v =>
      if k = name then (k, v) :: rest else (k, w) :: tblInsert rest name v

/-- Result of `execute` (src/vm.rs:54): the final stack and printed output on
success, the error together with the stack/output state at the point of
failure, a panic (`HashMap::get(..).unwrap()` on a missing function), or fuel
exhaustion (the Rust code has no fuel; a fuel-out result carries no
information). -/
inductive ExecResult where
  | ok (stack : List Value) (out : List Value)
  | err (e : RuntimeError) (stack : List Value) (out : List Value)
  | panicked
  | fuelOut

/-- `TYPE` keyword's name for a value's kind (src/vm.rs:420-436). -/
def typeName : Value → List Char
  | .Block _ => "block".data
  | .Integer _ => "int".data
  | .Float _ => "float".data
  | .String _ => "string".data
  | .Boolean _ => "bool".data
  | .Tag t => t
  | .Function _ => "function".data

mutual
/-- The execution engine `execute` (src/vm.rs:54-445).  The stack is a
`List Value` with the top at the head (Rust pushes/pops at the `Vec`'s end);
`out` accumulates the values printed by `PRINT`.  Fuel decreases on every
recursive step; the Rust loop over the token vector corresponds to the tail
calls on `rest`. -/
def execute (F : FloatSem) (fns : FnTable) : Nat → List Token → List Value → List Value → ExecResult
  | gas, toks, s, out =>
    match toks with
    | [] => .ok s out
    | tok :: rest =>
    match gas with
    | 0 => .fuelOut
    | g + 1 =>
    match tok.kind with
    | .Literal lit =>
      match lit with
      | .Function func =>
          match tblGet fns func with
          | none => .panicked
          | some body =>
              if body.isEmpty then execute F fns g rest (.Tag func :: s) out
              else execute F fns g rest (.Block body :: s) out
      | _ => execute F fns g rest (lit :: s) out
    | .Op op =>
      match op with
      | .Add =>
        match s with
        | [] => .err (.OperatorInvalidValues tok.pos '+') [] out
        | [_] => .err (.OperatorInvalidValues tok.pos '+') [] out
        | val1 :: val2 :: s2 =>
            match valueAdd F val1 val2 with
            | some v => execute F fns g rest (v :: s2) out
            | none => .err (.OperatorInvalidValues tok.pos '+') s2 out
      | .Divide =>
        match s with
        | [] => .err (.OperatorInvalidValues tok.pos '/') [] out
        | [_] => .err (.OperatorInvalidValues tok.pos '/') [] out
        | val1 :: val2 :: s2 =>
            match valueDiv F val2 val1 with
            | some v => execute F fns g rest (v :: s2) out
            | none => .err (.OperatorInvalidValues tok.pos '/') s2 out
      | .Multiply =>
        match s with
        | [] => .err (.OperatorInvalidValues tok.pos '*') [] out
        | [_] => .err (.OperatorInvalidValues tok.pos '*') [] out
        | val1 :: val2 :: s2 =>
            match valueMul F val1 val2 with
            | some v => execute F fns g rest (v :: s2) out
            | none => .err (.OperatorInvalidValues tok.pos '*') s2 out
      | .Subtract =>
        match s with
        | [] => .err (.OperatorInvalidValues tok.pos '-') [] out
        | [_] => .err (.OperatorInvalidValues tok.pos '-') [] out
        | val1 :: val2 :: s2 =>
            match valueSub F val2 val1 with
            | some v => execute F fns g rest (v :: s2) out
            | none => .err (.OperatorInvalidValues tok.pos '-') s2 out
      | .Equal =>
        match s with
        | [] => .err (.OperatorInvalidValues tok.pos '=') [] out
        | [_] => .err (.OperatorInvalidValues tok.pos '=') [] out
        | val1 :: val2 :: s2 =>
            execute F fns g rest (.Boolean (valueEq F val1 val2) :: s2) out
      | .NotEqual =>
        match s with
        | [] => .err (.OperatorInvalidValues tok.pos '!') [] out
        | [_] => .err (.OperatorInvalidValues tok.pos '!') [] out
        | val1 :: val2 :: s2 =>
            execute F fns g rest (.Boolean (!valueEq F val1 val2) :: s2) out
      | .Not =>
        match s with
        | [] => .err (.OperatorInvalidValues tok.pos '!') [] out
        | val1 :: s1 =>
            match valueNot val1 with
            | some b => execute F fns g rest (b :: s1) out
            | none => .err (.OperatorInvalidValues tok.pos '!') s1 out
      | .Lesser =>
        match s with
        | [] => .err (.OperatorInvalidValues tok.pos '<') [] out
        | [_] => .err (.OperatorInvalidValues tok.pos '<') [] out
        | val1 :: val2 :: s2 =>
            execute F fns g rest (.Boolean (valueLt F val2 val1) :: s2) out
      | .LesserEqual =>
        match s with
        | [] => .err (.OperatorInvalidValues tok.pos '<') [] out
        | [_] => .err (.OperatorInvalidValues tok.pos '<') [] out
        | val1 :: val2 :: s2 =>
            execute F fns g rest (.Boolean (valueLe F val2 val1) :: s2) out
      | .Greater =>
        match s with
        | [] => .err (.OperatorInvalidValues tok.pos '>') [] out
        | [_] => .err (.OperatorInvalidValues tok.pos '>') [] out
        | val1 :: val2 :: s2 =>
            execute F fns g rest (.Boolean (valueGt F val2 val1) :: s2) out
      | .GreaterEqual =>
        match s with
        | [] => .err (.OperatorInvalidValues tok.pos '>') [] out
        | [_] => .err (.OperatorInvalidValues tok.pos '>') [] out
        | val1 :: val2 :: s2 =>
            execute F fns g rest (.Boolean (valueGe F val2 val1) :: s2) out
      | .And =>
        match s with
        | [] => .err (.OperatorInvalidValues tok.pos '&') [] out
        | val1 :: s1 =>
            match val1 with
            | .Boolean b1 =>
              match s1 with
              | [] => .err (.OperatorInvalidValues tok.pos '&') [] out
              | val2 :: s2 =>
                  match val2 with
                  | .Boolean b2 => execute F fns g rest (.Boolean (b1 && b2) :: s2) out
                  | _ => .err (.OperatorInvalidValues tok.pos '&') s2 out
            | _ => .err (.OperatorInvalidValues tok.pos '&') s1 out
      | .Or =>
        match s with
        | [] => .err (.OperatorInvalidValues tok.pos '|') [] out
        | val1 :: s1 =>
            match val1 with
            | .Boolean b1 =>
              match s1 with
              | [] => .err (.OperatorInvalidValues tok.pos '|') [] out
              | val2 :: s2 =>
                  match val2 with
                  | .Boolean b2 => execute F fns g rest (.Boolean (b1 || b2) :: s2) out
                  | _ => .err (.OperatorInvalidValues tok.pos '|') s2 out
            | _ => .err (.OperatorInvalidValues tok.pos '|') s1 out
      | .Run =>
        match s with
        | [] => .err (.OperatorInvalidValues tok.pos '$') [] out
        | val1 :: s1 =>
            match val1 with
            | .Block b =>
                match execute F fns g b s1 out with
                | .ok s2 out2 => execute F fns g rest s2 out2
                | r => r
            | _ => .err (.OperatorInvalidValues tok.pos '$') s1 out
    | .Keyword keyword =>
      match keyword with
      | .PRINT =>
        match s with
        | [] => execute F fns g rest [] (out ++ [.String []])
        | v :: s1 => execute F fns g rest s1 (out ++ [v])
      | .EXIT => .ok s out
      | .LOOP =>
        match s with
        | [] => .err (.KeywordInvalidValues tok.pos .LOOP) [] out
        | val1 :: s1 =>
            match val1 with
            | .Block b =>
                match runLoop F fns b tok.pos g s1 out with
                | .ok s2 out2 => execute F fns g rest s2 out2
                | r => r
            | _ => .err (.KeywordInvalidValues tok.pos .LOOP) s1 out
      | .DUPLICATE =>
        match s with
        | [] => .err (.KeywordInvalidValues tok.pos .DUPLICATE) [] out
        | v :: s1 => execute F fns g rest (v :: v :: s1) out
      | .DROP =>
        match s with
        | [] => execute F fns g rest [] out
        | _ :: s1 => execute F fns g rest s1 out
      | .SWAP =>
        match s with
        | a :: b :: s2 => execute F fns g rest (b :: a :: s2) out
        | short => .err (.KeywordInvalidValues tok.pos .SWAP) short out
      | .DEPTH => execute F fns g rest (.Integer (wrap32 s.length) :: s) out
      | .ROT =>
        match s with
        | c :: b :: a :: s3 => execute F fns g rest (a :: c :: b :: s3) out
        | short => .err (.KeywordInvalidValues tok.pos .ROT) short out
      | .NROT =>
        match s with
        | c :: b :: a :: s3 => execute F fns g rest (b :: a :: c :: s3) out
        | short => .err (.KeywordInvalidValues tok.pos .NROT) short out
      | .OVER =>
        match s with
        | t :: u :: s2 => execute F fns g rest (u :: t :: u :: s2) out
        | short => .err (.KeywordInvalidValues tok.pos .OVER) short out
      | .TUCK =>
        match s with
        | t :: u :: s2 => execute F fns g rest (t :: u :: t :: s2) out
        | short => .err (.KeywordInvalidValues tok.pos .TUCK) short out
      | .PICK =>
        match s with
        | [] => .err (.KeywordInvalidValues tok.pos .PICK) [] out
        | val1 :: s1 =>
            match val1 with
            | .Integer i =>
                if i - 1 < 0 then .err (.KeywordInvalidValues tok.pos .ROLL) s1 out
                else
                  let index := (i - 1).toNat
                  if s1.length ≤ index then .err (.KeywordInvalidValues tok.pos .PICK) s1 out
                  else
                    match s1.get? (s1.length - 1 - index) with
                    | some v => execute F fns g rest (v :: s1) out
                    | none => .panicked
            | _ => .err (.KeywordInvalidValues tok.pos .PICK) s1 out
      | .ROLL =>
        match s with
        | [] => .err (.KeywordInvalidValues tok.pos .ROLL) [] out
        | val1 :: s1 =>
            match val1 with
            | .Integer i =>
                if i - 1 < 0 then .err (.KeywordInvalidValues tok.pos .ROLL) s1 out
                else
                  let index := (i - 1).toNat
                  if s1.length ≤ index then .err (.KeywordInvalidValues tok.pos .ROLL) s1 out
                  else
                    match s1.get? (s1.length - 1 - index) with
                    | some v => execute F fns g rest (v :: s1.eraseIdx (s1.length - 1 - index)) out
                    | none => .panicked
            | _ => .err (.KeywordInvalidValues tok.pos .ROLL) s1 out
      | .CLEAR => execute F fns g rest [] out
      | .GATE =>
        match s with
        | [] => .err (.KeywordInvalidValues tok.pos .GATE) [] out
        | val1 :: s1 =>
            match val1 with
            | .Block trueFunc =>
              match s1 with
              | [] => .err (.KeywordInvalidValues tok.pos .GATE) [] out
              | val2 :: s2 =>
                  match val2 with
                  | .Block falseFunc =>
                    match s2 with
                    | [] => .err (.KeywordInvalidValues tok.pos .GATE) [] out
                    | val3 :: s3 =>
                        match val3 with
                        | .Boolean cond =>
                            match execute F fns g (if cond then trueFunc else falseFunc) s3 out with
                            | .ok s4 out4 => execute F fns g rest s4 out4
                            | r => r
                        | _ => .err (.KeywordInvalidValues tok.pos .GATE) s3 out
                  | .Boolean cond =>
                      match execute F fns g (if cond then trueFunc else []) s2 out with
                      | .ok s4 out4 => execute F fns g rest s4 out4
                      | r => r
                  | _ => .err (.KeywordInvalidValues tok.pos .GATE) s2 out
            | _ => .err (.KeywordInvalidValues tok.pos .GATE) s1 out
      | .TYPE =>
        match s with
        | [] => .err (.KeywordInvalidValues tok.pos .TYPE) [] out
        | v :: s1 => execute F fns g rest (.Tag (typeName v) :: s1) out
      | _ => execute F fns g rest s out

/-- The `loop` inside the LOOP arm (src/vm.rs:264-276): pop a Boolean
condition, stop on false, otherwise run the block and repeat. -/
def runLoop (F : FloatSem) (fns : FnTable) (body : List Token) (pos : TokenPosition) : Nat → List Value → List Value → ExecResult
  | 0, _, _ => .fuelOut
  | g + 1, s, out =>
    match s with
    | [] => .err (.KeywordInvalidValues pos .LOOP) [] out
    | v :: s1 =>
        match v with
        | .Boolean condition =>
            if condition then
              match execute F fns g body s1 out with
              | .ok s2 out2 => runLoop F fns body pos g s2 out2
              | r => r
            else .ok s1 out
        | _ => .err (.KeywordInvalidValues pos .LOOP) s1 out
end

/-- SerializationError from src/serial.rs (the UTF-8 error's payload is
dropped). -/
inductive SerErr where
  | EndOfFile
  | InvalidTagByte (b : Nat)
  | InvalidUTF8Encoding
  | InvalidFile
  | InvalidVersion
deriving DecidableEq

/-- Big-endian bytes of a 32-bit quantity (`u32::to_be_bytes`). -/
def beBytes (n : Nat) : List Nat :=
  [n / 2 ^ 24 % 256, n / 2 ^ 16 % 256, n / 2 ^ 8 % 256, n % 256]

/-- Value of four big-endian bytes (`u32::from_be_bytes`). -/
def beNat4 (b0 b1 b2 b3 : Nat) : Nat := ((b0 * 256 + b1) * 256 + b2) * 256 + b3

/-- `as u32` on a usize. -/
def u32cast (n : Nat) : Nat := n % 2 ^ 32

/-- `i32::to_be_bytes`: big-endian two's complement. -/
def i32be (i : Int) : List Nat := beBytes ((i.emod (2 ^ 32)).toNat)

/-- `i32::from_be_bytes`: reinterpret a 32-bit pattern as a signed value. -/
def i32val (n : Nat) : Int := if n < 2 ^ 31 then (n : Int) else (n : Int) - 2 ^ 32

/-- UTF-8 encoding of one Unicode scalar value. -/
def utf8Char (c : Char) : List Nat :=
  let n := c.toNat
  if n < 0x80 then [n]
  else if n < 0x800 then [0xC0 + n / 64, 0x80 + n % 64]
  else if n < 0x10000 then [0xE0 + n / 4096, 0x80 + n / 64 % 64, 0x80 + n % 64]
  else [0xF0 + n / 262144, 0x80 + n / 4096 % 64, 0x80 + n / 64 % 64, 0x80 + n % 64]

/-- `String::as_bytes`: UTF-8 encoding of a string. -/
def utf8Encode : List Char → List Nat
  | [] => []
  | c :: cs => utf8Char c ++ utf8Encode cs

/-- Lower bound on the first continuation byte of a 3-byte sequence
(E0 forbids overlong encodings). -/
def utf8lo3 (b : Nat) : Nat := if b = 0xE0 then 0xA0 else 0x80

/-- Upper bound on the first continuation byte of a 3-byte sequence
(ED forbids surrogates). -/
def utf8hi3 (b : Nat) : Nat := if b = 0xED then 0x9F else 0xBF

/-- Lower bound on the first continuation byte of a 4-byte sequence. -/
def utf8lo4 (b : Nat) : Nat := if b = 0xF0 then 0x90 else 0x80

/-- Upper bound on the first continuation byte of a 4-byte sequence
(F4 caps code points at U+10FFFF). -/
def utf8hi4 (b : Nat) : Nat := if b = 0xF4 then 0x8F else 0xBF

mutual
/-- `String::from_utf8`: full UTF-8 validation and decoding, per the Unicode
table Rust enforces (rejecting overlong forms, surrogates and > U+10FFFF).
The continuation bytes of multi-byte sequences are handled by `utf8Dec2`,
`utf8Dec3` and `utf8Dec4`. -/
def utf8Decode : List Nat → Option (List Char)
  | [] => some []
  | b0 :: t0 =>
    if b0 < 0x80 then (utf8Decode t0).map (fun l => Char.ofNat b0 :: l)
    else if b0 < 0xC2 then none
    else if b0 < 0xE0 then utf8Dec2 b0 t0
    else if b0 < 0xF0 then utf8Dec3 b0 t0
    else if b0 ≤ 0xF4 then utf8Dec4 b0 t0
    else none
termination_by bs => (bs.length, 0)

/-- Continuation byte of a 2-byte UTF-8 sequence led by `b0`. -/
def utf8Dec2 (b0 : Nat) : List Nat → Option (List Char)
  | c1 :: t1 =>
      if 0x80 ≤ c1 ∧ c1 ≤ 0xBF then
        (utf8Decode t1).map (fun l => Char.ofNat ((b0 - 0xC0) * 64 + (c1 - 0x80)) :: l)
      else none
  | [] => none
termination_by bs => (bs.length, 1)

/-- Continuation bytes of a 3-byte UTF-8 sequence led by `b0`. -/
def utf8Dec3 (b0 : Nat) : List Nat → Option (List Char)
  | c1 :: c2 :: t2 =>
      if (utf8lo3 b0 ≤ c1 ∧ c1 ≤ utf8hi3 b0) ∧ (0x80 ≤ c2 ∧ c2 ≤ 0xBF) then
        (utf8Decode t2).map
          (fun l => Char.ofNat ((b0 - 0xE0) * 4096 + (c1 - 0x80) * 64 + (c2 - 0x80)) :: l)
      else none
  | _ => none
termination_by bs => (bs.length, 1)

/-- Continuation bytes of a 4-byte UTF-8 sequence led by `b0`. -/
def utf8Dec4 (b0 : Nat) : List Nat → Option (List Char)
  | c1 :: c2 :: c3 :: t3 =>
      if (utf8lo4 b0 ≤ c1 ∧ c1 ≤ utf8hi4 b0) ∧ (0x80 ≤ c2 ∧ c2 ≤ 0xBF) ∧
         (0x80 ≤ c3 ∧ c3 ≤ 0xBF) then
        (utf8Decode t3).map
          (fun l => Char.ofNat
            ((b0 - 0xF0) * 262144 + (c1 - 0x80) * 4096 + (c2 - 0x80) * 64 + (c3 - 0x80)) :: l)
      else none
  | _ => none
termination_by bs => (bs.length, 1)
end

/-- `TokenPosition::to_bytes` (src/lexer.rs:14-20): row then col as u32. -/
def TokenPosition.toBytes (p : TokenPosition) : List Nat :=
  beBytes (u32cast p.row) ++ beBytes (u32cast p.col)

/-- `TokenPosition::from_bytes` (src/lexer.rs:22-34). -/
def TokenPosition.fromBytes : List Nat → Except SerErr (TokenPosition × Nat)
  | r0 :: r1 :: r2 :: r3 :: c0 :: c1 :: c2 :: c3 :: _ =>
      .ok (⟨beNat4 r0 r1 r2 r3, beNat4 c0 c1 c2 c3⟩, 8)
  | _ => .error .EndOfFile

/-- `Keyword::to_bytes` (src/types.rs:175-201). -/
def Keyword.toBytes : Keyword → List Nat
  | .PRINT => [0x01] | .TRUE => [0x02] | .FALSE => [0x03] | .EXIT => [0x04]
  | .LOOP => [0x05] | .GATE => [0x06] | .DUPLICATE => [0x07] | .DROP => [0x08]
  | .SWAP => [0x09] | .DEPTH => [0x0A] | .ROT => [0x0B] | .NROT => [0x0C]
  | .OVER => [0x0D] | .TUCK => [0x0E] | .PICK => [0x0F] | .ROLL => [0x10]
  | .CLEAR => [0x11] | .TYPE => [0x12] | .USE => [0x13] | .INPUT => [0x14]
  | .STRLEN => [0x15]

/-- `Keyword::from_bytes` (src/types.rs:203-238). -/
def Keyword.fromBytes : List Nat → Except SerErr (Keyword × Nat)
  | [] => .error .EndOfFile
  | tag :: _ =>
    if tag = 0x01 then .ok (.PRINT, 1) else if tag = 0x02 then .ok (.TRUE, 1)
    else if tag = 0x03 then .ok (.FALSE, 1) else if tag = 0x04 then .ok (.EXIT, 1)
    else if tag = 0x05 then .ok (.LOOP, 1) else if tag = 0x06 then .ok (.GATE, 1)
    else if tag = 0x07 then .ok (.DUPLICATE, 1) else if tag = 0x08 then .ok (.DROP, 1)
    else if tag = 0x09 then .ok (.SWAP, 1) else if tag = 0x0A then .ok (.DEPTH, 1)
    else if tag = 0x0B then .ok (.ROT, 1) else if tag = 0x0C then .ok (.NROT, 1)
    else if tag = 0x0D then .ok (.OVER, 1) else if tag = 0x0E then .ok (.TUCK, 1)
    else if tag = 0x0F then .ok (.PICK, 1) else if tag = 0x10 then .ok (.ROLL, 1)
    else if tag = 0x11 then .ok (.CLEAR, 1) else if tag = 0x12 then .ok (.TYPE, 1)
    else if tag = 0x13 then .ok (.USE, 1) else if tag = 0x14 then .ok (.INPUT, 1)
    else if tag = 0x15 then .ok (.STRLEN, 1)
    else .error (.InvalidTagByte tag)

/-- `Operation::to_bytes` (src/types.rs:242-260). -/
def Operation.toBytes : Operation → List Nat
  | .Add => [0x01] | .Subtract => [0x02] | .Multiply => [0x03] | .Divide => [0x04]
  | .Equal => [0x05] | .NotEqual => [0x06] | .Greater => [0x07] | .Lesser => [0x08]
  | .GreaterEqual => [0x09] | .LesserEqual => [0x0A] | .And => [0x0B] | .Or => [0x0C]
  | .Not => [0x0D] | .Run => [0x0E]

/-- `Operation::from_bytes` (src/types.rs:262-289). -/
def Operation.fromBytes : List Nat → Except SerErr (Operation × Nat)
  | [] => .error .EndOfFile
  | tag :: _ =>
    if tag = 0x01 then .ok (.Add, 1) else if tag = 0x02 then .ok (.Subtract, 1)
    else if tag = 0x03 then .ok (.Multiply, 1) else if tag = 0x04 then .ok (.Divide, 1)
    else if tag = 0x05 then .ok (.Equal, 1) else if tag = 0x06 then .ok (.NotEqual, 1)
    else if tag = 0x07 then .ok (.Greater, 1) else if tag = 0x08 then .ok (.Lesser, 1)
    else if tag = 0x09 then .ok (.GreaterEqual, 1) else if tag = 0x0A then .ok (.LesserEqual, 1)
    else if tag = 0x0B then .ok (.And, 1) else if tag = 0x0C then .ok (.Or, 1)
    else if tag = 0x0D then .ok (.Not, 1) else if tag = 0x0E then .ok (.Run, 1)
    else .error (.InvalidTagByte tag)

mutual
/-- `Value::to_bytes` (src/types.rs:292-366): tag byte plus payload; strings
carry a `len() as u32` prefix of their UTF-8 bytes, blocks a token count. -/
def Value.toBytes : Value → List Nat
  | .Integer i => 0x01 :: i32be i
  | .Float bits => 0x02 :: beBytes bits
  | .Boolean b => [0x03, if b then 0x01 else 0x00]
  | .String s => 0x04 :: beBytes (u32cast (utf8Encode s).length) ++ utf8Encode s
  | .Block t => 0x05 :: beBytes (u32cast t.length) ++ tokensToBytes t
  | .Function s => 0x06 :: beBytes (u32cast (utf8Encode s).length) ++ utf8Encode s
  | .Tag s => 0x07 :: beBytes (u32cast (utf8Encode s).length) ++ utf8Encode s

/-- Concatenated encodings of a token vector (the loop in the Block arm). -/
def tokensToBytes : List Token → List Nat
  | [] => []
  | t :: ts => t.toBytes ++ tokensToBytes ts

/-- `TokenType::to_bytes` (src/lexer.rs:54-72). -/
def TokenType.toBytes : TokenType → List Nat
  | .Literal v => 0x01 :: v.toBytes
  | .Op o => 0x02 :: o.toBytes
  | .Keyword k => 0x03 :: k.toBytes

/-- `Token::to_bytes` (src/lexer.rs:119-123): kind then position. -/
def Token.toBytes : Token → List Nat
  | .mk kind pos => kind.toBytes ++ pos.toBytes
end

/-- The `0x01` (Integer) payload of `Value::from_bytes`: four big-endian
bytes after the tag. -/
def decodeIntPayload : List Nat → Except SerErr (Value × Nat)
  | b0 :: b1 :: b2 :: b3 :: _ => .ok (.Integer (i32val (beNat4 b0 b1 b2 b3)), 5)
  | _ => .error .EndOfFile

/-- The `0x02` (Float) payload of `Value::from_bytes`. -/
def decodeFloatPayload : List Nat → Except SerErr (Value × Nat)
  | b0 :: b1 :: b2 :: b3 :: _ => .ok (.Float (beNat4 b0 b1 b2 b3), 5)
  | _ => .error .EndOfFile

/-- The `0x03` (Boolean) payload of `Value::from_bytes`. -/
def decodeBoolPayload : List Nat → Except SerErr (Value × Nat)
  | b :: _ =>
      if b = 0x01 then .ok (.Boolean true, 2)
      else if b = 0x00 then .ok (.Boolean false, 2)
      else .error (.InvalidTagByte b)
  | [] => .error .EndOfFile

/-- The common string payload of the `0x04`/`0x06`/`0x07` arms of
`Value::from_bytes`: a u32 byte length, then that many UTF-8 bytes; the
reported count includes the tag and length prefix (`5 + len`). -/
def decodeStrPayload : List Nat → Except SerErr (List Char × Nat)
  | l0 :: l1 :: l2 :: l3 :: r2 =>
      let len := beNat4 l0 l1 l2 l3
      if r2.length < len then .error .EndOfFile
      else
        match utf8Decode (r2.take len) with
        | some s => .ok (s, 5 + len)
        | none => .error .InvalidUTF8Encoding
  | _ => .error .EndOfFile

mutual
/-- `Value::from_bytes` (src/types.rs:368-470). -/
def Value.fromBytes : List Nat → Except SerErr (Value × Nat)
  | [] => .error .EndOfFile
  | tag :: rest =>
    if tag = 0x01 then decodeIntPayload rest
    else if tag = 0x02 then decodeFloatPayload rest
    else if tag = 0x03 then decodeBoolPayload rest
    else if tag = 0x04 then
      match decodeStrPayload rest with
      | .ok (s, n) => .ok (.String s, n)
      | .error e => .error e
    else if tag = 0x05 then
      match decodeBlockPayload rest with
      | .ok (tokens, n) => .ok (.Block tokens, n)
      | .error e => .error e
    else if tag = 0x06 then
      match decodeStrPayload rest with
      | .ok (s, n) => .ok (.Function s, n)
      | .error e => .error e
    else if tag = 0x07 then
      match decodeStrPayload rest with
      | .ok (s, n) => .ok (.Tag s, n)
      | .error e => .error e
    else .error (.InvalidTagByte tag)
termination_by bs => (bs.length, 0, 0)

/-- The `0x05` (Block) payload of `Value::from_bytes`: a u32 token count,
then that many serialized tokens; the reported count includes the tag and
length prefix (`5 +` the bytes the token loop consumed). -/
def decodeBlockPayload : List Nat → Except SerErr (List Token × Nat)
  | l0 :: l1 :: l2 :: l3 :: r2 =>
      let len := beNat4 l0 l1 l2 l3
      if r2.length < len then .error .EndOfFile
      else
        match decodeTokens len r2 with
        | .ok (tokens, m) => .ok (tokens, 5 + m)
        | .error e => .error e
  | _ => .error .EndOfFile
termination_by bs => (bs.length, 2 ^ 64, 0)

/-- The token-decoding loop of the Block arm: decode `k` tokens, tracking the
running byte offset. -/
def decodeTokens : Nat → List Nat → Except SerErr (List Token × Nat)
  | 0, _ => .ok ([], 0)
  | k + 1, bs =>
    match Token.fromBytes bs with
    | .error e => .error e
    | .ok (t, n) =>
        match decodeTokens k (bs.drop n) with
        | .error e => .error e
        | .ok (ts, m) => .ok (t :: ts, n + m)
termination_by k bs => (bs.length, k + 1, 0)
decreasing_by
· simp_wf
  exact Prod.Lex.right _ (Prod.Lex.left _ _ (by omega))
· simp_wf
  by_cases h : bs.length - n < bs.length
  · exact Prod.Lex.left _ _ h
  · have h2 : bs.length - n = bs.length := by omega
    rw [h2]
    exact Prod.Lex.right _ (Prod.Lex.left _ _ (by omega))

/-- `TokenType::from_bytes` (src/lexer.rs:74-96): requires two bytes, then
dispatches on the kind tag. -/
def TokenType.fromBytes : List Nat → Except SerErr (TokenType × Nat)
  | [] => .error .EndOfFile
  | tag :: rest =>
    if rest.isEmpty then .error .EndOfFile
    else if tag = 0x01 then
      match Value.fromBytes rest with
      | .ok (v, n) => .ok (.Literal v, n + 1)
      | .error e => .error e
    else if tag = 0x02 then
      match Operation.fromBytes rest with
      | .ok (o, n) => .ok (.Op o, n + 1)
      | .error e => .error e
    else if tag = 0x03 then
      match Keyword.fromBytes rest with
      | .ok (k, n) => .ok (.Keyword k, n + 1)
      | .error e => .error e
    else .error (.InvalidTagByte tag)
termination_by bs => (bs.length, 0, 1)

/-- `Token::from_bytes` (src/lexer.rs:125-135): kind, then position. -/
def Token.fromBytes : List Nat → Except SerErr (Token × Nat)
  | [] => .error .EndOfFile
  | b :: bs =>
    match TokenType.fromBytes (b :: bs) with
    | .error e => .error e
    | .ok (kind, typeBytes) =>
        match TokenPosition.fromBytes ((b :: bs).drop typeBytes) with
        | .error e => .error e
        | .ok (pos, posBytes) => .ok (.mk kind pos, typeBytes + posBytes)
termination_by bs => (bs.length, 0, 2)
end

/-- TokenizerError from src/lexer.rs. -/
inductive TokenizerError where
  | InvalidNumberFormat (pos : TokenPosition)
  | UnexpectedSymbol (pos : TokenPosition) (c : Char)
  | UnknownIdentifier (pos : TokenPosition) (name : List Char)
  | BlockHadNoEnd (pos : TokenPosition)
  | StringHadNoEnd (pos : TokenPosition)
  | FunctionHasMultipleDefinitions (pos : TokenPosition) (name : List Char)
deriving DecidableEq

/-- Rust `char::is_whitespace` (the Unicode White_Space property). -/
def rustWhitespace (c : Char) : Bool :=
  let n := c.toNat
  (9 ≤ n && n ≤ 13) || n = 32 || n = 0x85 || n = 0xA0 || n = 0x1680 ||
  (0x2000 ≤ n && n ≤ 0x200A) || n = 0x2028 || n = 0x2029 || n = 0x202F ||
  n = 0x205F || n = 0x3000

/-- Rust `char::is_ascii_digit`. -/
def isAsciiDigit (c : Char) : Bool := '0' ≤ c && c ≤ '9'

/-- Rust `char::is_ascii_alphabetic`. -/
def isAsciiAlpha (c : Char) : Bool := ('a' ≤ c && c ≤ 'z') || ('A' ≤ c && c ≤ 'Z')

/-- Rust `char::is_ascii_alphanumeric`. -/
def isAsciiAlnum (c : Char) : Bool := isAsciiAlpha c || isAsciiDigit c

/-- Numeric value of one decimal digit. -/
def digitVal (c : Char) : Nat := c.toNat - 48

/-- Value of a non-empty all-digit run, `none` otherwise. -/
def digitsVal (ds : List Char) : Option Nat :=
  if ds.isEmpty then none
  else if ds.all isAsciiDigit then some (ds.foldl (fun a c => a * 10 + digitVal c) 0)
  else none

/-- Rust `str::parse::<i32>` on the character sets the number scanner can
produce (optional leading `-`, digits, no dot): digits with an i32 range
check. -/
def rustParseI32 : List Char → Option Int
  | '-' :: ds =>
      match digitsVal ds with
      | some n => if (n : Int) ≤ 2 ^ 31 then some (-(n : Int)) else none
      | none => none
  | ds =>
      match digitsVal ds with
      | some n => if (n : Int) ≤ 2 ^ 31 - 1 then some (n : Int) else none
      | none => none

/-- Whether a scanned numeral contains a digit: on the strings the number
scanner can produce (optional leading `-`, digits and at most one `.`),
Rust `str::parse::<f32>` succeeds exactly when a digit is present (overflow
gives an infinity, not an error). -/
def hasDigit (s : List Char) : Bool := s.any isAsciiDigit

/-- The comment loop (src/lexer.rs:195-202): consume up to and including the
next `;` (or end of input), adding 1 to the column per consumed character —
row is never touched, even for newlines. -/
def skipComment : List Char → TokenPosition → (List Char × TokenPosition)
  | [], pos => ([], pos)
  | c :: r, pos =>
      let pos2 : TokenPosition := ⟨pos.row, pos.col + 1⟩
      if c = ';' then (r, pos2) else skipComment r pos2

/-- The numeral loop (src/lexer.rs:219-242): peek-driven; a second `.` or a
non-whitespace terminator is `InvalidNumberFormat`; a whitespace terminator
is left unconsumed. -/
def scanNumber : List Char → TokenPosition → Bool → List Char → Except TokenizerError (List Char × TokenPosition × List Char × Bool)
  | [], pos, sawDot, str => .ok ([], pos, str, sawDot)
  | c :: r, pos, sawDot, str =>
      if isAsciiDigit c then scanNumber r ⟨pos.row, pos.col + 1⟩ sawDot (str ++ [c])
      else if c = '.' then
        if sawDot then .error (.InvalidNumberFormat pos)
        else scanNumber r ⟨pos.row, pos.col + 1⟩ true (str ++ [c])
      else if rustWhitespace c then .ok (c :: r, pos, str, sawDot)
      else .error (.InvalidNumberFormat pos)

/-- The string loop (src/lexer.rs:265-309): verbatim copy with escapes; the
closing quote must be followed by whitespace or end of input.  Newlines in
the body advance only the column. -/
def scanString (startPos : TokenPosition) : List Char → TokenPosition → List Char → Except TokenizerError (List Char × TokenPosition × List Char)
  | [], _, _ => .error (.StringHadNoEnd startPos)
  | c :: r, pos, acc =>
      if c = '"' then
        match r with
        | c2 :: _ =>
            if rustWhitespace c2 then .ok (r, ⟨pos.row, pos.col + 1⟩, acc)
            else .error (.UnexpectedSymbol ⟨pos.row, pos.col + 2⟩ c2)
        | [] => .ok ([], ⟨pos.row, pos.col + 1⟩, acc)
      else if c = '\\' then
        match r with
        | e :: r2 =>
            let esc : List Char :=
              if e = 'n' then ['\n'] else if e = 't' then ['\t']
              else if e = '\\' then ['\\'] else if e = '"' then ['"']
              else if e = 'r' then ['\r'] else ['\\', e]
            scanString startPos r2 ⟨pos.row, pos.col + 2⟩ (acc ++ esc)
        | [] =>
            -- the pushed backslash is followed by end of input: the next
            -- iteration's peek fails
            .error (.StringHadNoEnd startPos)
      else scanString startPos r ⟨pos.row, pos.col + 1⟩ (acc ++ [c])

/-- The block-body loop of `handle_block` (src/lexer.rs:536-585): copy the
body with brace balancing; each `}` consumes (and discards) its following
separator, which must be whitespace/end of input; `\x7b`/`\x7d` written as
`\\`-escapes are unescaped; a newline sets the column to 0 (the caller's
recursive tokenize restarts the count).  The final `}` appends a NUL
character to the captured body. -/
def scanBlock : List Char → TokenPosition → Nat → List Char → Except TokenizerError (List Char × TokenPosition × List Char)
  | [], pos, _, _ => .error (.BlockHadNoEnd pos)
  | c :: r, pos, balancer, acc =>
      if c = '}' then
        match r with
        | [] =>
            match balancer with
            | 0 => .error (.BlockHadNoEnd ⟨pos.row, pos.col + 1⟩)
            | 1 => .ok (acc ++ ['\x00'], ⟨pos.row, pos.col + 2⟩, [])
            | _ + 2 =>
                -- an unclosed inner block at end of input: the next
                -- iteration finds the stream empty
                .error (.BlockHadNoEnd ⟨pos.row, pos.col + 2⟩)
        | sep :: r2 =>
            if !rustWhitespace sep then .error (.UnexpectedSymbol ⟨pos.row, pos.col + 2⟩ sep)
            else
              match balancer with
              | 0 => .error (.BlockHadNoEnd ⟨pos.row, pos.col + 1⟩)
              | 1 => .ok (acc ++ ['\x00'], ⟨pos.row, pos.col + 2⟩, r2)
              | b + 2 => scanBlock r2 ⟨pos.row, pos.col + 2⟩ (b + 1) (acc ++ ['}'])
      else if c = '{' then scanBlock r ⟨pos.row, pos.col + 1⟩ (balancer + 1) (acc ++ ['{'])
      else if c = '\\' then
        match r with
        | e :: r2 =>
            if e = '{' || e = '}' then scanBlock r2 ⟨pos.row, pos.col + 2⟩ balancer (acc ++ [e])
            else scanBlock r2 ⟨pos.row, pos.col + 2⟩ balancer (acc ++ ['\\', e])
        | [] =>
            -- the pushed backslash is followed by end of input: the next
            -- iteration finds the stream empty
            .error (.BlockHadNoEnd ⟨pos.row, pos.col + 1⟩)
      else if c = '\n' then scanBlock r ⟨pos.row + 1, 0⟩ balancer (acc ++ [c])
      else scanBlock r ⟨pos.row, pos.col + 1⟩ balancer (acc ++ [c])

/-- The function-name loop of the `@` branch (src/lexer.rs:439-455): consume
alphanumeric/underscore characters; the terminating whitespace is consumed
and discarded. -/
def scanName : List Char → TokenPosition → List Char → Except TokenizerError (List Char × TokenPosition × List Char)
  | [], pos, acc => .ok (acc, pos, [])
  | c :: r, pos, acc =>
      if rustWhitespace c then .ok (acc, pos, r)
      else if isAsciiAlnum c || c = '_' then scanName r ⟨pos.row, pos.col + 1⟩ (acc ++ [c])
      else .error (.UnexpectedSymbol pos c)

/-- The identifier loop (src/lexer.rs:474-483): peek-driven; the terminating
whitespace is left unconsumed (unlike `scanName`). -/
def scanIdent : List Char → TokenPosition → List Char → Except TokenizerError (List Char × TokenPosition × List Char)
  | [], pos, acc => .ok (acc, pos, [])
  | c :: r, pos, acc =>
      if rustWhitespace c then .ok (acc, pos, c :: r)
      else if isAsciiAlnum c || c = '_' then scanIdent r ⟨pos.row, pos.col + 1⟩ (acc ++ [c])
      else .error (.UnexpectedSymbol pos c)

/-- The static keyword table (src/lexer.rs:590-614). -/
def kwOf (s : List Char) : Option Keyword :=
  if s = "print".data then some .PRINT
  else if s = "true".data then some .TRUE
  else if s = "false".data then some .FALSE
  else if s = "exit".data then some .EXIT
  else if s = "loop".data then some .LOOP
  else if s = "dup".data then some .DUPLICATE
  else if s = "gate".data then some .GATE
  else if s = "drop".data then some .DROP
  else if s = "type".data then some .TYPE
  else if s = "swap".data then some .SWAP
  else if s = "depth".data then some .DEPTH
  else if s = "rot".data then some .ROT
  else if s = "nrot".data then some .NROT
  else if s = "over".data then some .OVER
  else if s = "tuck".data then some .TUCK
  else if s = "pick".data then some .PICK
  else if s = "roll".data then some .ROLL
  else if s = "clear".data then some .CLEAR
  else none

/-- The non-recursive tail of the numeral branch (src/lexer.rs:210-259):
scan the numeral, then parse it as Float if a dot was seen (src/lexer.rs:
243-248, fallible only when no digit is present) else as i32
(src/lexer.rs:249-255). -/
def numberToken (F : FloatSem) (startPos : TokenPosition) (first : Char) (cs : List Char)
    (pos1 : TokenPosition) : Except TokenizerError (List Char × TokenPosition × Token) :=
  match scanNumber cs pos1 (first = '.') [first] with
  | .error e => .error e
  | .ok (rem, posN, str, sawDot) =>
      if sawDot then
        if hasDigit str then
          .ok (rem, posN, Token.mk (.Literal (.Float (F.ofDecimal str))) startPos)
        else .error (.InvalidNumberFormat posN)
      else
        match rustParseI32 str with
        | some n => .ok (rem, posN, Token.mk (.Literal (.Integer n)) startPos)
        | none => .error (.InvalidNumberFormat posN)

/-- Result of `tokenize`: the token list together with the final function
table, a tokenizer error, or fuel exhaustion. -/
inductive TokOut where
  | ok (toks : List Token) (fns : FnTable)
  | err (e : TokenizerError)
  | gasOut

/-- The tokenizer `tokenize` (src/lexer.rs:184-525) together with its helper
`handle_block` (src/lexer.rs:527-587), which is inlined at its two call
sites (the `\x7b` branch and the `@` branch) so that the whole function is
structurally recursive on the fuel.  One unit of fuel is spent per iteration
of the Rust `while` loop and per recursive `handle_block` tokenization.
Branches that `continue` in Rust skip the bottom-of-loop position update;
the others fall through to it (their character is never a newline, so the
column advances by 1). -/
def tokenize (F : FloatSem) : Nat → List Char → TokenPosition → FnTable → List Token → TokOut
  | _, [], _, fns, acc => .ok acc fns
  | 0, _ :: _, _, _, _ => .gasOut
  | g + 1, ch :: cs, pos, fns, acc =>
    if ch = ';' then
      let sk := skipComment cs pos
      tokenize F g sk.1 ⟨sk.2.row, sk.2.col + 1⟩ fns acc
    else
      let negNum := ch = '-' &&
        (match cs with
         | c2 :: _ => isAsciiDigit c2 || c2 = '.'
         | [] => false)
      if isAsciiDigit ch || ch = '.' || negNum then
        match numberToken F pos ch cs ⟨pos.row, pos.col + 1⟩ with
        | .error e => .err e
        | .ok (rem, posN, tok) => tokenize F g rem posN fns (acc ++ [tok])
      else if ch = '"' then
        match scanString pos cs pos [] with
        | .error e => .err e
        | .ok (rem, posS, str) =>
            tokenize F g rem ⟨posS.row, posS.col + 1⟩ fns
              (acc ++ [Token.mk (.Literal (.String str)) pos])
      else if ch = '{' then
        match cs with
        | c0 :: r0 =>
            if !rustWhitespace c0 then .err (.UnexpectedSymbol ⟨pos.row, pos.col + 1⟩ c0)
            else
              match scanBlock r0 ⟨pos.row, pos.col + 1⟩ 1 [] with
              | .error e => .err e
              | .ok (inner, pos2, remaining) =>
                  match tokenize F g inner ⟨pos.row, pos.col + 1⟩ fns [] with
                  | .err e => .err e
                  | .gasOut => .gasOut
                  | .ok body fns2 =>
                      tokenize F g remaining ⟨pos2.row, pos2.col + 1⟩ fns2
                        (acc ++ [Token.mk (.Literal (.Block body)) pos])
        | [] =>
            match scanBlock [] ⟨pos.row, pos.col + 1⟩ 1 [] with
            | .error e => .err e
            | .ok (inner, pos2, remaining) =>
                match tokenize F g inner ⟨pos.row, pos.col + 1⟩ fns [] with
                | .err e => .err e
                | .gasOut => .gasOut
                | .ok body fns2 =>
                    tokenize F g remaining ⟨pos2.row, pos2.col + 1⟩ fns2
                      (acc ++ [Token.mk (.Literal (.Block body)) pos])
      else if ch = '}' then .err (.BlockHadNoEnd pos)
      else if ch = '+' then
        let nc := cs.headD ' '
        if !rustWhitespace nc then .err (.UnexpectedSymbol ⟨pos.row, pos.col + 1⟩ nc)
        else tokenize F g cs ⟨pos.row, pos.col + 1⟩ fns (acc ++ [Token.mk (.Op .Add) pos])
      else if ch = '-' then
        let nc := cs.headD ' '
        if !rustWhitespace nc then .err (.UnexpectedSymbol ⟨pos.row, pos.col + 1⟩ nc)
        else tokenize F g cs ⟨pos.row, pos.col + 1⟩ fns (acc ++ [Token.mk (.Op .Subtract) pos])
      else if ch = '/' then
        let nc := cs.headD ' '
        if !rustWhitespace nc then .err (.UnexpectedSymbol ⟨pos.row, pos.col + 1⟩ nc)
        else tokenize F g cs ⟨pos.row, pos.col + 1⟩ fns (acc ++ [Token.mk (.Op .Divide) pos])
      else if ch = '*' then
        let nc := cs.headD ' '
        if !rustWhitespace nc then .err (.UnexpectedSymbol ⟨pos.row, pos.col + 1⟩ nc)
        else tokenize F g cs ⟨pos.row, pos.col + 1⟩ fns (acc ++ [Token.mk (.Op .Multiply) pos])
      else if ch = '=' then
        let nc := cs.headD ' '
        if !rustWhitespace nc then .err (.UnexpectedSymbol ⟨pos.row, pos.col + 1⟩ nc)
        else tokenize F g cs ⟨pos.row, pos.col + 1⟩ fns (acc ++ [Token.mk (.Op .Equal) pos])
      else if ch = '!' then
        match cs with
        | c0 :: r1 =>
            if c0 = '=' then
              let nc2 := r1.headD ' '
              if !rustWhitespace nc2 then .err (.UnexpectedSymbol ⟨pos.row, pos.col + 2⟩ nc2)
              else tokenize F g r1 ⟨pos.row, pos.col + 1⟩ fns
                (acc ++ [Token.mk (.Op .NotEqual) ⟨pos.row, pos.col + 1⟩])
            else tokenize F g cs ⟨pos.row, pos.col + 1⟩ fns (acc ++ [Token.mk (.Op .Not) pos])
        | [] => tokenize F g [] ⟨pos.row, pos.col + 1⟩ fns (acc ++ [Token.mk (.Op .Not) pos])
      else if ch = '<' then
        match cs with
        | c0 :: r1 =>
            if c0 = '=' then
              let nc2 := r1.headD ' '
              if !rustWhitespace nc2 then .err (.UnexpectedSymbol ⟨pos.row, pos.col + 2⟩ nc2)
              else tokenize F g r1 ⟨pos.row, pos.col + 1⟩ fns
                (acc ++ [Token.mk (.Op .LesserEqual) ⟨pos.row, pos.col + 1⟩])
            else tokenize F g cs ⟨pos.row, pos.col + 1⟩ fns (acc ++ [Token.mk (.Op .Lesser) pos])
        | [] => tokenize F g [] ⟨pos.row, pos.col + 1⟩ fns (acc ++ [Token.mk (.Op .Lesser) pos])
      else if ch = '>' then
        match cs with
        | c0 :: r1 =>
            if c0 = '=' then
              let nc2 := r1.headD ' '
              if !rustWhitespace nc2 then .err (.UnexpectedSymbol ⟨pos.row, pos.col + 2⟩ nc2)
              else tokenize F g r1 ⟨pos.row, pos.col + 1⟩ fns
                (acc ++ [Token.mk (.Op .GreaterEqual) ⟨pos.row, pos.col + 1⟩])
            else tokenize F g cs ⟨pos.row, pos.col + 1⟩ fns (acc ++ [Token.mk (.Op .Greater) pos])
        | [] => tokenize F g [] ⟨pos.row, pos.col + 1⟩ fns (acc ++ [Token.mk (.Op .Greater) pos])
      else if ch = '&' then
        let nc := cs.headD ' '
        if !rustWhitespace nc then .err (.UnexpectedSymbol ⟨pos.row, pos.col + 1⟩ nc)
        else tokenize F g cs ⟨pos.row, pos.col + 1⟩ fns (acc ++ [Token.mk (.Op .And) pos])
      else if ch = '|' then
        let nc := cs.headD ' '
        if !rustWhitespace nc then .err (.UnexpectedSymbol ⟨pos.row, pos.col + 1⟩ nc)
        else tokenize F g cs ⟨pos.row, pos.col + 1⟩ fns (acc ++ [Token.mk (.Op .Or) pos])
      else if ch = '$' then
        let nc := cs.headD ' '
        if !rustWhitespace nc then .err (.UnexpectedSymbol ⟨pos.row, pos.col + 1⟩ nc)
        else tokenize F g cs ⟨pos.row, pos.col + 1⟩ fns (acc ++ [Token.mk (.Op .Run) pos])
      else if ch = '@' then
        match scanName cs ⟨pos.row, pos.col + 1⟩ [] with
        | .error e => .err e
        | .ok (name, posN, rem1) =>
            if tblContains fns name then
              .err (.FunctionHasMultipleDefinitions ⟨pos.row, pos.col + 1⟩ name)
            else
              match rem1 with
              | [] =>
                  tokenize F g [] ⟨posN.row, posN.col + 2⟩ (tblInsert fns name []) acc
              | c0 :: rem2 =>
                  if c0 ≠ '{' then
                    tokenize F g rem2 ⟨posN.row, posN.col + 2⟩ (tblInsert fns name []) acc
                  else
                    match rem2 with
                    | c1 :: r1 =>
                        if !rustWhitespace c1 then
                          .err (.UnexpectedSymbol ⟨posN.row, posN.col + 2⟩ c1)
                        else
                          match scanBlock r1 ⟨posN.row, posN.col + 2⟩ 1 [] with
                          | .error e => .err e
                          | .ok (inner, pos3, remaining) =>
                              match tokenize F g inner ⟨posN.row, posN.col + 2⟩
                                  (tblInsert fns name []) [] with
                              | .err e => .err e
                              | .gasOut => .gasOut
                              | .ok body fns2 =>
                                  tokenize F g remaining ⟨pos3.row, pos3.col + 1⟩
                                    (tblInsert fns2 name body) acc
                    | [] =>
                        match scanBlock [] ⟨posN.row, posN.col + 2⟩ 1 [] with
                        | .error e => .err e
                        | .ok (inner, pos3, remaining) =>
                            match tokenize F g inner ⟨posN.row, posN.col + 2⟩
                                (tblInsert fns name []) [] with
                            | .err e => .err e
                            | .gasOut => .gasOut
                            | .ok body fns2 =>
                                tokenize F g remaining ⟨pos3.row, pos3.col + 1⟩
                                  (tblInsert fns2 name body) acc
      else if isAsciiAlpha ch || ch = '_' then
        match scanIdent cs pos [ch] with
        | .error e => .err e
        | .ok (ident, posI, rem) =>
            match kwOf ident with
            | some k =>
                match k with
                | .TRUE =>
                    tokenize F g rem posI fns (acc ++ [Token.mk (.Literal (.Boolean true)) pos])
                | .FALSE =>
                    tokenize F g rem posI fns (acc ++ [Token.mk (.Literal (.Boolean false)) pos])
                | .EXIT => .ok acc fns
                | _ =>
                    tokenize F g rem ⟨posI.row, posI.col + 1⟩ fns
                      (acc ++ [Token.mk (.Keyword k) pos])
            | none =>
                if tblContains fns ident then
                  tokenize F g rem posI fns (acc ++ [Token.mk (.Literal (.Function ident)) pos])
                else .err (.UnknownIdentifier pos ident)
      else if ch = '\n' then tokenize F g cs ⟨pos.row + 1, 1⟩ fns acc
      else tokenize F g cs ⟨pos.row, pos.col + 1⟩ fns acc

/-- Result of `run_string` (src/lib.rs): a tokenizer error (reported, nothing
executed), or the interpreter's result. -/
inductive RunOut where
  | tokFailed (e : TokenizerError)
  | tokGasOut
  | executed (r : ExecResult)

/-- `run_string` (src/lib.rs): tokenize with an empty function table from
position (1,1), then execute on a fresh stack. -/
def runString (F : FloatSem) (gas : Nat) (src : List Char) : RunOut :=
  match tokenize F gas src ⟨1, 1⟩ [] [] with
  | .err e => .tokFailed e
  | .gasOut => .tokGasOut
  | .ok toks fns => .executed (execute F fns gas toks [] [])

/-! ### Serializability side conditions and round-trip lemmas -/

mutual
/-- The typing/representability side conditions Rust guarantees for a
`Value` it serializes: every `i32` is in range, every `f32` pattern fits 32
bits, and every length that is written `as u32` — string byte lengths, block
token counts, row/column — actually fits in 32 bits. -/
def Value.sval : Value → Bool
  | .Integer i => decide (-(2 ^ 31) ≤ i) && decide (i < 2 ^ 31)
  | .Float bits => decide (bits < 2 ^ 32)
  | .Boolean _ => true
  | .String s => decide ((utf8Encode s).length < 2 ^ 32)
  | .Block ts => decide (ts.length < 2 ^ 32) && tokensSval ts
  | .Function s => decide ((utf8Encode s).length < 2 ^ 32)
  | .Tag s => decide ((utf8Encode s).length < 2 ^ 32)

/-- `Value.sval` over a token vector. -/
def tokensSval : List Token → Bool
  | [] => true
  | t :: ts => t.sval && tokensSval ts

/-- `Value.sval` for a token: its literal and its position. -/
def Token.sval : Token → Bool
  | .mk kind pos => kind.sval && decide (pos.row < 2 ^ 32) && decide (pos.col < 2 ^ 32)

/-- `Value.sval` for a token kind. -/
def TokenType.sval : TokenType → Bool
  | .Literal v => v.sval
  | .Op _ => true
  | .Keyword _ => true
end

mutual
/-- Whether a value contains no `Function` variant at any nesting depth. -/
def Value.funFree : Value → Bool
  | .Function _ => false
  | .Block ts => tokensFunFree ts
  | _ => true

/-- `Value.funFree` over a token vector. -/
def tokensFunFree : List Token → Bool
  | [] => true
  | t :: ts => t.funFree && tokensFunFree ts

/-- `Value.funFree` for a token. -/
def Token.funFree : Token → Bool
  | .mk kind _ => kind.funFree

/-- `Value.funFree` for a token kind. -/
def TokenType.funFree : TokenType → Bool
  | .Literal v => v.funFree
  | _ => true
end

/-! ### The no-Function stack invariant -/

/-- No value on the stack is the Function variant. -/
def noFun (s : List Value) : Prop := ∀ v ∈ s, v.isFun = false

/-- The invariant, read off an interpreter result: it constrains the stack
both on success and on error (panic and fuel exhaustion carry no stack). -/
def stackNoFun : ExecResult → Prop
  | .ok s _ => noFun s
  | .err _ s _ => noFun s
  | .panicked => True
  | .fuelOut => True

/-! ### Codec round-trip lemmas -/

theorem char_valid_nat (c : Char) :
    c.toNat < 55296 ∨ (57343 < c.toNat ∧ c.toNat < 1114112) := by
  rcases c.valid with h | ⟨h1, h2⟩
  · exact Or.inl h
  · exact Or.inr ⟨h1, h2⟩

theorem beNat4_beBytes (n : Nat) (h : n < 2 ^ 32) :
    beNat4 (n / 2 ^ 24 % 256) (n / 2 ^ 16 % 256) (n / 2 ^ 8 % 256) (n % 256) = n := by
  simp only [beNat4]
  omega

theorem u32cast_eq (n : Nat) (h : n < 2 ^ 32) : u32cast n = n := Nat.mod_eq_of_lt h

/-- Decoding inverts the UTF-8 encoding of one scalar value, for any
continuation of the byte stream. -/
theorem utf8Decode_char (c : Char) (rest : List Nat) :
    utf8Decode (utf8Char c ++ rest) = (utf8Decode rest).map (fun l => c :: l) := by
  have hv := char_valid_nat c
  have hofNat : Char.ofNat c.toNat = c := Char.ofNat_toNat c
  simp only [utf8Char]
  generalize hg : c.toNat = n at hv hofNat
  by_cases h1 : n < 0x80
  · rw [if_pos h1]
    simp only [List.cons_append, List.nil_append]
    rw [utf8Decode]
    rw [if_pos h1, hofNat]
  · rw [if_neg h1]
    by_cases h2 : n < 0x800
    · rw [if_pos h2]
      simp only [List.cons_append, List.nil_append]
      rw [utf8Decode]
      rw [if_neg (by omega), if_neg (by omega), if_pos (by omega)]
      rw [utf8Dec2]
      rw [if_pos (by omega)]
      have hval : (0xC0 + n / 64 - 0xC0) * 64 + (0x80 + n % 64 - 0x80) = n := by omega
      rw [hval, hofNat]
    · rw [if_neg h2]
      by_cases h3 : n < 0x10000
      · rw [if_pos h3]
        simp only [List.cons_append, List.nil_append]
        rw [utf8Decode]
        rw [if_neg (by omega), if_neg (by omega), if_neg (by omega), if_pos (by omega)]
        rw [utf8Dec3]
        have hlo : utf8lo3 (0xE0 + n / 4096) ≤ 0x80 + n / 64 % 64 := by
          simp only [utf8lo3]
          split <;> omega
        have hhi : 0x80 + n / 64 % 64 ≤ utf8hi3 (0xE0 + n / 4096) := by
          simp only [utf8hi3]
          split <;> omega
        rw [if_pos ⟨⟨hlo, hhi⟩, by omega, by omega⟩]
        have hval : (0xE0 + n / 4096 - 0xE0) * 4096 + (0x80 + n / 64 % 64 - 0x80) * 64 +
            (0x80 + n % 64 - 0x80) = n := by omega
        rw [hval, hofNat]
      · rw [if_neg h3]
        simp only [List.cons_append, List.nil_append]
        rw [utf8Decode]
        rw [if_neg (by omega), if_neg (by omega), if_neg (by omega), if_neg (by omega),
           if_pos (by omega)]
        rw [utf8Dec4]
        have hlo : utf8lo4 (0xF0 + n / 262144) ≤ 0x80 + n / 4096 % 64 := by
          simp only [utf8lo4]
          split <;> omega
        have hhi : 0x80 + n / 4096 % 64 ≤ utf8hi4 (0xF0 + n / 262144) := by
          simp only [utf8hi4]
          split <;> omega
        rw [if_pos ⟨⟨hlo, hhi⟩, ⟨by omega, by omega⟩, by omega, by omega⟩]
        have hval : (0xF0 + n / 262144 - 0xF0) * 262144 + (0x80 + n / 4096 % 64 - 0x80) * 4096 +
            (0x80 + n / 64 % 64 - 0x80) * 64 + (0x80 + n % 64 - 0x80) = n := by omega
        rw [hval, hofNat]

/-- `String::from_utf8` inverts `String::as_bytes`. -/
theorem utf8Decode_encode (s : List Char) : utf8Decode (utf8Encode s) = some s := by
  have h : ∀ rest, utf8Decode (utf8Encode s ++ rest) = (utf8Decode rest).map (fun l => s ++ l) := by
    induction s with
    | nil =>
        intro rest
        simp [utf8Encode]
    | cons c cs ih =>
        intro rest
        rw [utf8Encode, List.append_assoc, utf8Decode_char, ih]
        cases utf8Decode rest <;> rfl
  have h2 := h []
  rw [List.append_nil] at h2
  rw [h2]
  simp [utf8Decode]

/-- `i32::from_be_bytes` inverts `i32::to_be_bytes` for in-range values. -/
theorem i32_round (i : Int) (hlo : -(2 ^ 31) ≤ i) (hhi : i < 2 ^ 31) :
    i32val (beNat4 ((i.emod (2 ^ 32)).toNat / 2 ^ 24 % 256) ((i.emod (2 ^ 32)).toNat / 2 ^ 16 % 256)
      ((i.emod (2 ^ 32)).toNat / 2 ^ 8 % 256) ((i.emod (2 ^ 32)).toNat % 256)) = i := by
  have hm : i.emod (2 ^ 32) = i % (2 ^ 32) := rfl
  have h1 : (0 : Int) ≤ i.emod (2 ^ 32) := Int.emod_nonneg _ (by norm_num)
  have h2 : i.emod (2 ^ 32) < 2 ^ 32 := Int.emod_lt_of_pos _ (by norm_num)
  rw [beNat4_beBytes _ (by omega)]
  simp only [i32val]
  rw [hm] at h1 h2 ⊢
  split <;> omega

theorem operation_round (o : Operation) (rest : List Nat) :
    Operation.fromBytes (o.toBytes ++ rest) = .ok (o, 1) := by
  cases o <;> rfl

theorem operation_toBytes_length (o : Operation) : o.toBytes.length = 1 := by
  cases o <;> rfl

theorem keyword_round (k : Keyword) (rest : List Nat) :
    Keyword.fromBytes (k.toBytes ++ rest) = .ok (k, 1) := by
  cases k <;> rfl

theorem keyword_toBytes_length (k : Keyword) : k.toBytes.length = 1 := by
  cases k <;> rfl

theorem tokenPosition_round (p : TokenPosition) (hr : p.row < 2 ^ 32) (hc : p.col < 2 ^ 32)
    (rest : List Nat) :
    TokenPosition.fromBytes (p.toBytes ++ rest) = .ok (p, 8) := by
  obtain ⟨row, col⟩ := p
  simp only [TokenPosition.toBytes, u32cast_eq _ hr, u32cast_eq _ hc, beBytes,
    List.cons_append, List.nil_append, TokenPosition.fromBytes]
  rw [beNat4_beBytes _ hr, beNat4_beBytes _ hc]

theorem Value.toBytes_ne_nil (v : Value) : v.toBytes ≠ [] := by
  cases v <;> simp [Value.toBytes]

theorem token_toBytes_length (t : Token) :
    t.toBytes.length = (TokenType.toBytes t.kind).length + 8 := by
  obtain ⟨k, p⟩ := t
  simp [Token.toBytes, Token.kind, TokenPosition.toBytes, beBytes]

theorem tokensToBytes_length_ge (ts : List Token) : ts.length ≤ (tokensToBytes ts).length := by
  induction ts with
  | nil => simp [tokensToBytes]
  | cons t ts ih =>
      simp only [tokensToBytes, List.length_append, List.length_cons]
      have := token_toBytes_length t
      omega

theorem fromBytes_tag1 (rest : List Nat) :
    Value.fromBytes (1 :: rest) = decodeIntPayload rest := by
  simp [Value.fromBytes]

theorem fromBytes_tag2 (rest : List Nat) :
    Value.fromBytes (2 :: rest) = decodeFloatPayload rest := by
  simp [Value.fromBytes]

theorem fromBytes_tag3 (rest : List Nat) :
    Value.fromBytes (3 :: rest) = decodeBoolPayload rest := by
  simp [Value.fromBytes]

theorem fromBytes_tag4 (rest : List Nat) :
    Value.fromBytes (4 :: rest)
      = (decodeStrPayload rest).map (fun p => (Value.String p.1, p.2)) := by
  simp only [Value.fromBytes]
  norm_num
  cases h : decodeStrPayload rest with
  | error e => simp [Except.map]
  | ok p => simp [Except.map]

theorem fromBytes_tag5 (rest : List Nat) :
    Value.fromBytes (5 :: rest)
      = (decodeBlockPayload rest).map (fun p => (Value.Block p.1, p.2)) := by
  simp only [Value.fromBytes]
  norm_num
  cases h : decodeBlockPayload rest with
  | error e => simp [Except.map]
  | ok p => simp [Except.map]

theorem fromBytes_tag7 (rest : List Nat) :
    Value.fromBytes (7 :: rest)
      = (decodeStrPayload rest).map (fun p => (Value.Tag p.1, p.2)) := by
  simp only [Value.fromBytes]
  norm_num
  cases h : decodeStrPayload rest with
  | error e => simp [Except.map]
  | ok p => simp [Except.map]

theorem decodeIntPayload_round (i : Int) (hlo : -(2 ^ 31) ≤ i) (hhi : i < 2 ^ 31)
    (rest : List Nat) :
    decodeIntPayload (i32be i ++ rest) = .ok (.Integer i, 5) := by
  simp only [i32be, beBytes, List.cons_append, List.nil_append, decodeIntPayload]
  rw [i32_round i hlo hhi]

theorem decodeFloatPayload_round (bits : Nat) (h : bits < 2 ^ 32) (rest : List Nat) :
    decodeFloatPayload (beBytes bits ++ rest) = .ok (.Float bits, 5) := by
  simp only [beBytes, List.cons_append, List.nil_append, decodeFloatPayload]
  rw [beNat4_beBytes _ h]

theorem decodeStrPayload_round (s : List Char) (h : (utf8Encode s).length < 2 ^ 32)
    (rest : List Nat) :
    decodeStrPayload (beBytes (u32cast (utf8Encode s).length) ++ (utf8Encode s ++ rest))
      = .ok (s, 5 + (utf8Encode s).length) := by
  simp only [u32cast_eq _ h, beBytes, List.cons_append, List.nil_append, decodeStrPayload]
  rw [beNat4_beBytes _ h]
  rw [if_neg (by simp only [List.length_append]; omega)]
  rw [List.take_left, utf8Decode_encode]

mutual
/-- The round trip of `Value` serialization, for values within the u32 length
bounds and free of the Function variant, with any trailing bytes. -/
theorem value_round (v : Value) (hs : v.sval = true) (hf : v.funFree = true) (rest : List Nat) :
    Value.fromBytes (v.toBytes ++ rest) = .ok (v, v.toBytes.length) := by
  cases v with
  | Integer i =>
      simp only [Value.sval, Bool.and_eq_true, decide_eq_true_eq] at hs
      simp only [Value.toBytes, List.cons_append]
      rw [fromBytes_tag1, decodeIntPayload_round i hs.1 hs.2]
      simp [Value.toBytes, i32be, beBytes]
  | Float bits =>
      simp only [Value.sval, decide_eq_true_eq] at hs
      simp only [Value.toBytes, List.cons_append]
      rw [fromBytes_tag2, decodeFloatPayload_round bits hs]
      simp [Value.toBytes, beBytes]
  | Boolean b =>
      cases b <;> simp [Value.toBytes, fromBytes_tag3, decodeBoolPayload]
  | String s =>
      simp only [Value.sval, decide_eq_true_eq] at hs
      simp only [Value.toBytes, List.cons_append, List.append_assoc]
      rw [fromBytes_tag4, decodeStrPayload_round s hs rest]
      simp [Value.toBytes, beBytes, Except.map, List.length_append]
      omega
  | Block ts =>
      simp only [Value.sval, Bool.and_eq_true, decide_eq_true_eq] at hs
      simp only [Value.funFree] at hf
      simp only [Value.toBytes, List.cons_append, List.append_assoc]
      rw [fromBytes_tag5]
      rw [show decodeBlockPayload (beBytes (u32cast ts.length) ++ (tokensToBytes ts ++ rest))
            = .ok (ts, 5 + (tokensToBytes ts).length) from by
        simp only [u32cast_eq _ hs.1, beBytes, List.cons_append, List.nil_append,
          decodeBlockPayload]
        rw [beNat4_beBytes _ hs.1]
        rw [if_neg (by simp only [List.length_append]
                       have := tokensToBytes_length_ge ts
                       omega)]
        rw [tokens_round ts hs.2 hf rest]]
      simp [Value.toBytes, beBytes, Except.map, List.length_append]
      omega
  | Function s =>
      simp [Value.funFree] at hf
  | Tag s =>
      simp only [Value.sval, decide_eq_true_eq] at hs
      simp only [Value.toBytes, List.cons_append, List.append_assoc]
      rw [fromBytes_tag7, decodeStrPayload_round s hs rest]
      simp [Value.toBytes, beBytes, Except.map, List.length_append]
      omega

/-- The round trip of the Block arm's token loop. -/
theorem tokens_round (ts : List Token) (hs : tokensSval ts = true) (hf : tokensFunFree ts = true)
    (rest : List Nat) :
    decodeTokens ts.length (tokensToBytes ts ++ rest) = .ok (ts, (tokensToBytes ts).length) := by
  cases ts with
  | nil => simp [tokensToBytes, decodeTokens]
  | cons t ts =>
      simp only [tokensSval, Bool.and_eq_true] at hs
      simp only [tokensFunFree, Bool.and_eq_true] at hf
      simp only [tokensToBytes, List.length_cons, List.append_assoc, decodeTokens]
      simp only [token_round t hs.1 hf.1 (tokensToBytes ts ++ rest), List.drop_left]
      simp only [tokens_round ts hs.2 hf.2 rest]
      simp [List.length_append]

/-- The round trip of `TokenType` serialization. -/
theorem tokentype_round (k : TokenType) (hs : TokenType.sval k = true)
    (hf : TokenType.funFree k = true) (rest : List Nat) :
    TokenType.fromBytes (k.toBytes ++ rest) = .ok (k, k.toBytes.length) := by
  cases k with
  | Literal v =>
      simp only [TokenType.sval] at hs
      simp only [TokenType.funFree] at hf
      simp only [TokenType.toBytes, List.cons_append, TokenType.fromBytes]
      rw [if_neg (by simp [List.isEmpty_eq_true, Value.toBytes_ne_nil v])]
      rw [if_pos True.intro]
      simp only [value_round v hs hf rest]
      simp [Nat.add_comm]
  | Op o =>
      simp only [TokenType.toBytes, List.cons_append, TokenType.fromBytes]
      rw [if_neg (by cases o <;> simp [Operation.toBytes])]
      rw [if_neg (by norm_num), if_pos True.intro]
      simp only [operation_round o rest]
      simp [operation_toBytes_length]
  | Keyword kw =>
      simp only [TokenType.toBytes, List.cons_append, TokenType.fromBytes]
      rw [if_neg (by cases kw <;> simp [Keyword.toBytes])]
      rw [if_neg (by norm_num), if_neg (by norm_num), if_pos True.intro]
      simp only [keyword_round kw rest]
      simp [keyword_toBytes_length]

/-- The round trip of `Token` serialization. -/
theorem token_round (t : Token) (hs : Token.sval t = true) (hf : Token.funFree t = true)
    (rest : List Nat) :
    Token.fromBytes (t.toBytes ++ rest) = .ok (t, t.toBytes.length) := by
  obtain ⟨kind, pos⟩ := t
  simp only [Token.sval, Bool.and_eq_true, decide_eq_true_eq] at hs
  obtain ⟨⟨hks, hrow⟩, hcol⟩ := hs
  simp only [Token.funFree] at hf
  have hassoc : Token.toBytes (.mk kind pos) ++ rest
      = TokenType.toBytes kind ++ (pos.toBytes ++ rest) := by
    simp [Token.toBytes]
  rw [hassoc]
  obtain ⟨b, bs, hbs⟩ : ∃ b bs, TokenType.toBytes kind ++ (pos.toBytes ++ rest) = b :: bs := by
    cases kind with
    | Literal v =>
        refine ⟨1, Value.toBytes v ++ (pos.toBytes ++ rest), ?_⟩
        simp [TokenType.toBytes]
    | Op o =>
        refine ⟨2, Operation.toBytes o ++ (pos.toBytes ++ rest), ?_⟩
        simp [TokenType.toBytes]
    | Keyword kw =>
        refine ⟨3, Keyword.toBytes kw ++ (pos.toBytes ++ rest), ?_⟩
        simp [TokenType.toBytes]
  rw [hbs, Token.fromBytes, ← hbs]
  simp only [tokentype_round kind hks hf (pos.toBytes ++ rest), List.drop_left]
  simp only [tokenPosition_round pos hrow hcol rest]
  simp [Token.toBytes, TokenPosition.toBytes, beBytes]
end

theorem utf8Char_a : utf8Char 'a' = [97] := by
  have h : 'a'.toNat = 97 := rfl
  simp [utf8Char, h]

theorem utf8Encode_replicate_a (n : Nat) :
    utf8Encode (List.replicate n 'a') = List.replicate n 97 := by
  induction n with
  | zero => rfl
  | succ n ih => simp [List.replicate_succ, utf8Encode, utf8Char_a, ih]

/-- A 2^32-byte string has its u32 length prefix truncated to 0, so decoding
its serialization yields the empty string after 5 bytes. -/
theorem fromBytes_toBytes_bigString :
    Value.fromBytes (Value.toBytes (.String (List.replicate (2 ^ 32) 'a')))
      = .ok (.String [], 5) := by
  have henc : utf8Encode (List.replicate (2 ^ 32) 'a') = List.replicate (2 ^ 32) 97 :=
    utf8Encode_replicate_a _
  simp only [Value.toBytes, henc, List.length_replicate]
  rw [show u32cast (2 ^ 32) = 0 from by simp [u32cast]]
  simp only [beBytes, List.cons_append, List.nil_append]
  norm_num
  rw [fromBytes_tag4]
  simp only [decodeStrPayload]
  rw [show beNat4 0 0 0 0 = 0 from rfl]
  rw [if_neg (Nat.not_lt_zero _)]
  rw [List.take_zero]
  rw [show utf8Decode [] = some [] from by simp [utf8Decode]]
  rfl

theorem funFree_string (s : List Char) : Value.funFree (.String s) = true := rfl

/-! ### Lemmas for the no-Function invariant -/

theorem noFun_nil : noFun [] := by simp [noFun]

theorem noFun_cons {v : Value} {s : List Value} :
    noFun (v :: s) ↔ v.isFun = false ∧ noFun s := by simp [noFun]

theorem noFun_mem {s : List Value} (h : noFun s) {v : Value} (hv : v ∈ s) : v.isFun = false :=
  h v hv

theorem noFun_get? {s : List Value} (h : noFun s) {n : Nat} {v : Value}
    (hv : s.get? n = some v) : v.isFun = false := by
  induction s generalizing n with
  | nil => simp at hv
  | cons a t ih =>
      rw [noFun_cons] at h
      cases n with
      | zero => simp at hv; exact hv ▸ h.1
      | succ m => exact ih h.2 hv

theorem noFun_eraseIdx {s : List Value} (h : noFun s) (n : Nat) : noFun (s.eraseIdx n) := by
  induction s generalizing n with
  | nil => simpa [List.eraseIdx] using h
  | cons a t ih =>
      rw [noFun_cons] at h
      cases n with
      | zero => simpa [List.eraseIdx] using h.2
      | succ m => rw [List.eraseIdx]; exact noFun_cons.2 ⟨h.1, ih h.2 m⟩

theorem valueAdd_isFun (F : FloatSem) {a b v : Value} (h : valueAdd F a b = some v) :
    v.isFun = false := by
  cases a <;> cases b <;> simp [valueAdd] at h <;> simp [← h, Value.isFun]

theorem valueSub_isFun (F : FloatSem) {a b v : Value} (h : valueSub F a b = some v) :
    v.isFun = false := by
  cases a <;> cases b <;> simp [valueSub] at h <;> simp [← h, Value.isFun]

theorem valueMul_isFun (F : FloatSem) {a b v : Value} (h : valueMul F a b = some v) :
    v.isFun = false := by
  cases a <;> cases b <;> simp [valueMul] at h <;> simp [← h, Value.isFun]

theorem valueDiv_isFun (F : FloatSem) {a b v : Value} (h : valueDiv F a b = some v) :
    v.isFun = false := by
  cases a <;> cases b <;> simp [valueDiv] at h <;> try simp [← h, Value.isFun]
  case String.Integer s k =>
    rcases hg : s[usizeSub1 (usizeOfI32 k)]? with _ | c <;> rw [hg] at h <;> simp at h
    simp [← h, Value.isFun]

theorem valueNot_isFun {a v : Value} (h : valueNot a = some v) : v.isFun = false := by
  cases a <;> simp [valueNot] at h <;> simp [← h, Value.isFun]

theorem typeName_isFun (v : Value) : (Value.Tag (typeName v)).isFun = false := rfl

/-- The combined preservation statement for `execute` and `runLoop`, by
induction on the fuel. -/
theorem exec_noFun (F : FloatSem) (fns : FnTable) :
    ∀ g : Nat,
      (∀ (toks : List Token) (s out : List Value), noFun s →
        stackNoFun (execute F fns g toks s out))
      ∧ (∀ (body : List Token) (pos : TokenPosition) (s out : List Value), noFun s →
        stackNoFun (runLoop F fns body pos g s out)) := by
  intro g
  induction g with
  | zero =>
      constructor
      · intro toks s out hs
        cases toks with
        | nil => simpa [execute, stackNoFun] using hs
        | cons tok rest => simp [execute, stackNoFun]
      · intro body pos s out hs
        simp [runLoop, stackNoFun]
  | succ g ih =>
      obtain ⟨ihE, ihL⟩ := ih
      constructor
      · intro toks s out hs
        cases toks with
        | nil => simpa [execute, stackNoFun] using hs
        | cons tok rest =>
          obtain ⟨kind, pos⟩ := tok
          cases kind with
          | Literal lit =>
            cases lit with
            | Function name =>
                simp only [execute, Token.kind, Token.pos]
                rcases htbl : tblGet fns name with _ | body
                · simp [stackNoFun]
                · rcases hb : body.isEmpty <;> simp [hb] <;>
                    exact ihE _ _ _ (noFun_cons.2 ⟨rfl, hs⟩)
            | _ =>
                simp only [execute, Token.kind, Token.pos]
                exact ihE _ _ _ (noFun_cons.2 ⟨rfl, hs⟩)
          | Op op =>
            cases op
            case Run =>
              rcases s with _ | ⟨v1, s1⟩
              · exact noFun_nil
              · rw [noFun_cons] at hs
                cases v1 <;> try exact hs.2
                case Block b =>
                  simp only [execute, Token.kind, Token.pos]
                  have hin := ihE b s1 out hs.2
                  rcases hres : execute F fns g b s1 out with ⟨s3, out3⟩ | ⟨e, s3, out3⟩ | _ | _ <;>
                    rw [hres] at hin <;>
                    first
                      | exact ihE _ _ _ hin
                      | exact hin
                      | trivial
            all_goals
              rcases s with _ | ⟨v1, _ | ⟨v2, s2⟩⟩ <;>
                simp only [execute, Token.kind, Token.pos] <;>
                (try simp only [noFun_cons] at hs) <;>
                (try split) <;> (try split) <;>
                first
                  | trivial
                  | exact hs
                  | exact noFun_nil
                  | exact hs.2
                  | exact hs.2.2
                  | exact noFun_cons.2 hs.2
                  | exact ihE _ _ _ hs
                  | exact ihE _ _ _ (noFun_cons.2 ⟨rfl, hs.2.2⟩)
                  | exact ihE _ _ _ (noFun_cons.2 ⟨rfl, hs.2⟩)
                  | (rename_i v heq
                     first
                       | exact ihE _ _ _ (noFun_cons.2 ⟨valueAdd_isFun F heq, hs.2.2⟩)
                       | exact ihE _ _ _ (noFun_cons.2 ⟨valueSub_isFun F heq, hs.2.2⟩)
                       | exact ihE _ _ _ (noFun_cons.2 ⟨valueMul_isFun F heq, hs.2.2⟩)
                       | exact ihE _ _ _ (noFun_cons.2 ⟨valueDiv_isFun F heq, hs.2.2⟩)
                       | exact ihE _ _ _ (noFun_cons.2 ⟨valueNot_isFun heq, hs.2⟩)
                       | exact ihE _ _ _ (noFun_cons.2 ⟨valueNot_isFun heq, hs.2.2⟩)
                       | exact ihE _ _ _ (noFun_cons.2 ⟨valueNot_isFun heq, noFun_cons.2 hs.2⟩))
          | Keyword k =>
            cases k
            case LOOP =>
              rcases s with _ | ⟨v1, s1⟩
              · exact noFun_nil
              · rw [noFun_cons] at hs
                cases v1 <;> try exact hs.2
                case Block b =>
                  simp only [execute, Token.kind, Token.pos]
                  have hin := ihL b pos s1 out hs.2
                  rcases hres : runLoop F fns b pos g s1 out with ⟨s3, out3⟩ | ⟨e, s3, out3⟩ | _ | _ <;>
                    rw [hres] at hin <;>
                    first
                      | exact ihE _ _ _ hin
                      | exact hin
                      | trivial
            case GATE =>
              rcases s with _ | ⟨v1, s1⟩
              · exact noFun_nil
              · rw [noFun_cons] at hs
                cases v1 <;> try exact hs.2
                case Block tf =>
                  rcases s1 with _ | ⟨v2, s2⟩
                  · exact noFun_nil
                  · rw [noFun_cons] at hs
                    have hs2 := hs.2.2
                    cases v2 <;> try exact hs2
                    case Boolean cond =>
                      simp only [execute, Token.kind, Token.pos]
                      have hin := ihE (if cond then tf else []) s2 out hs2
                      rcases hres : execute F fns g (if cond then tf else []) s2 out with
                          ⟨s4, out4⟩ | ⟨e, s4, out4⟩ | _ | _ <;>
                        rw [hres] at hin <;>
                        first
                          | exact ihE _ _ _ hin
                          | exact hin
                          | trivial
                    case Block ff =>
                      rcases s2 with _ | ⟨v3, s3⟩
                      · exact noFun_nil
                      · rw [noFun_cons] at hs2
                        cases v3 <;> try exact hs2.2
                        case Boolean cond =>
                          simp only [execute, Token.kind, Token.pos]
                          have hin := ihE (if cond then tf else ff) s3 out hs2.2
                          rcases hres : execute F fns g (if cond then tf else ff) s3 out with
                              ⟨s4, out4⟩ | ⟨e, s4, out4⟩ | _ | _ <;>
                            rw [hres] at hin <;>
                            first
                              | exact ihE _ _ _ hin
                              | exact hin
                              | trivial
            case PICK =>
              rcases s with _ | ⟨v1, s1⟩
              · exact noFun_nil
              · rw [noFun_cons] at hs
                cases v1 <;> try exact hs.2
                case Integer i =>
                  simp only [execute, Token.kind, Token.pos]
                  split
                  · exact hs.2
                  · split
                    · exact hs.2
                    · split
                      · rename_i v hget
                        exact ihE _ _ _ (noFun_cons.2 ⟨noFun_get? hs.2 hget, hs.2⟩)
                      · trivial
            case ROLL =>
              rcases s with _ | ⟨v1, s1⟩
              · exact noFun_nil
              · rw [noFun_cons] at hs
                cases v1 <;> try exact hs.2
                case Integer i =>
                  simp only [execute, Token.kind, Token.pos]
                  split
                  · exact hs.2
                  · split
                    · exact hs.2
                    · split
                      · rename_i v hget
                        exact ihE _ _ _
                          (noFun_cons.2 ⟨noFun_get? hs.2 hget, noFun_eraseIdx hs.2 _⟩)
                      · trivial
            all_goals
              rcases s with _ | ⟨v1, _ | ⟨v2, _ | ⟨v3, s3⟩⟩⟩ <;>
                simp only [execute, Token.kind, Token.pos] <;>
                first
                  | trivial
                  | exact hs
                  | exact noFun_nil
                  | exact (noFun_cons.1 hs).2
                  | exact (noFun_cons.1 (noFun_cons.1 hs).2).2
                  | exact (noFun_cons.1 (noFun_cons.1 (noFun_cons.1 hs).2).2).2
                  | exact ihE _ _ _ hs
                  | exact ihE _ _ _ noFun_nil
                  | exact ihE _ _ _ (noFun_cons.1 hs).2
                  | exact ihE _ _ _ (by
                      simp only [noFun_cons, Value.isFun] at hs ⊢ <;> tauto)
      · intro body pos s out hs
        rcases s with _ | ⟨v1, s1⟩
        · exact noFun_nil
        · rw [noFun_cons] at hs
          cases v1 <;> try exact hs.2
          case Boolean b1 =>
            cases b1
            · exact hs.2
            · simp only [runLoop]
              have hin := ihE body s1 out hs.2
              rcases hres : execute F fns g body s1 out with ⟨s3, out3⟩ | ⟨e, s3, out3⟩ | _ | _ <;>
                rw [hres] at hin <;>
                first
                  | exact ihL _ _ _ _ hin
                  | exact hin
                  | trivial

/-! ### Claim theorems -/

/-- C5: for every token sequence, function table and Function-free stack,
after `execute` returns (success or error) the stack still contains no
Function value; and a `Literal(Function(name))` token whose name has a table
entry pushes `Tag(name)` for an empty body and `Block(body)` for a non-empty
one (a missing entry is the `unwrap` panic, which does not return).  No
other operation introduces a Function value. -/
theorem c5_stack_never_holds_function :
    (∀ (F : FloatSem) (fns : FnTable) (g : Nat) (toks : List Token) (s out : List Value),
        noFun s → stackNoFun (execute F fns g toks s out))
    ∧ (∀ (F : FloatSem) (fns : FnTable) (g : Nat) (name : List Char) (body : List Token)
        (pos : TokenPosition) (rest : List Token) (s out : List Value),
        tblGet fns name = some body →
        execute F fns (g + 1) (Token.mk (.Literal (.Function name)) pos :: rest) s out =
          execute F fns g rest
            ((if body.isEmpty then Value.Tag name else Value.Block body) :: s) out) := by
  constructor
  · intro F fns g toks s out hs
    exact (exec_noFun F fns g).1 toks s out hs
  · intro F fns g name body pos rest s out htbl
    simp only [execute, Token.kind]
    rw [htbl]
    rcases hb : body.isEmpty <;> simp [hb]

/-- Witness for the C5 theorem at concrete inputs. -/
theorem c5_stack_never_holds_function_witness :
    stackNoFun (execute trivFloat [] 5 [Token.mk (.Keyword .DUPLICATE) ⟨1, 1⟩] [.Integer 3] [])
    ∧ execute trivFloat [("f".data, [])] 3
        [Token.mk (.Literal (.Function "f".data)) ⟨1, 1⟩] [] [] =
      execute trivFloat [("f".data, [])] 2 []
        ((if ([] : List Token).isEmpty then Value.Tag "f".data else Value.Block []) :: []) [] :=
  ⟨c5_stack_never_holds_function.1 trivFloat [] 5 _ _ _
      (by simp [noFun, Value.isFun]),
   c5_stack_never_holds_function.2 trivFloat [("f".data, [])] 2 "f".data [] ⟨1, 1⟩ [] [] []
      (by rfl)⟩


/-- C10: executing Equal on two Block operands always pushes Boolean false
(and NotEqual pushes Boolean true), even for clones of the same token
sequence, because the value equality has no Block-vs-Block case. -/
theorem c10_blocks_never_equal :
    (∀ (F : FloatSem) (b1 b2 : List Token), valueEq F (.Block b1) (.Block b2) = false)
    ∧ (∀ (F : FloatSem) (fns : FnTable) (g : Nat) (pos : TokenPosition) (b1 b2 : List Token)
        (s out : List Value),
        execute F fns (g + 1) [Token.mk (.Op .Equal) pos] (.Block b1 :: .Block b2 :: s) out =
          .ok (.Boolean false :: s) out)
    ∧ (∀ (F : FloatSem) (fns : FnTable) (g : Nat) (pos : TokenPosition) (b1 b2 : List Token)
        (s out : List Value),
        execute F fns (g + 1) [Token.mk (.Op .NotEqual) pos] (.Block b1 :: .Block b2 :: s) out =
          .ok (.Boolean true :: s) out) := by
  refine ⟨fun _ _ _ => rfl, ?_, ?_⟩ <;>
  · intro F fns g pos b1 b2 s out
    simp [execute, Token.kind, valueEq]

/-- C2 (amended): the coercion table of the arithmetic `impl`s on `Value`:
Integer⊕Integer stays Integer except Divide, which promotes to Float;
any Float/Integer mix promotes to Float for all four operators;
String+String concatenates; String×Integer repeats the string;
String÷Integer indexes the string 1-based (a one-character string in range,
an error out of range); every remaining combination is invalid (`None`,
which the interpreter turns into OperatorInvalidValues). -/
theorem c2_arith_coercion (F : FloatSem) :
    (∀ a b : Int, valueAdd F (.Integer a) (.Integer b) = some (.Integer (wrap32 (a + b))))
    ∧ (∀ a b : Int, valueSub F (.Integer a) (.Integer b) = some (.Integer (wrap32 (a - b))))
    ∧ (∀ a b : Int, valueMul F (.Integer a) (.Integer b) = some (.Integer (wrap32 (a * b))))
    ∧ (∀ a b : Int,
        valueDiv F (.Integer a) (.Integer b) = some (.Float (F.fdiv (F.ofInt a) (F.ofInt b))))
    ∧ (∀ f ∈ [valueAdd F, valueSub F, valueMul F, valueDiv F],
        (∀ x y, ∃ z, f (.Float x) (.Float y) = some (.Float z))
        ∧ (∀ x (b : Int), ∃ z, f (.Float x) (.Integer b) = some (.Float z))
        ∧ (∀ (a : Int) y, ∃ z, f (.Integer a) (.Float y) = some (.Float z)))
    ∧ (∀ s t, valueAdd F (.String s) (.String t) = some (.String (s ++ t)))
    ∧ (∀ (s : List Char) (k : Int), 0 ≤ k → k < 2 ^ 31 →
        valueMul F (.String s) (.Integer k) = some (.String (strRepeat s k.toNat)))
    ∧ (∀ (s : List Char) (k : Int) (c : Char), 1 ≤ k → k < 2 ^ 31 →
        s[k.toNat - 1]? = some c →
        valueDiv F (.String s) (.Integer k) = some (.String [c]))
    ∧ (∀ (s : List Char) (k : Int), 1 ≤ k → k < 2 ^ 31 →
        s[k.toNat - 1]? = none →
        valueDiv F (.String s) (.Integer k) = none)
    ∧ (∀ v w, (v.kind, w.kind) ∉
          ([(.float, .float), (.float, .int), (.int, .float), (.int, .int),
            (.str, .str)] : List (VKind × VKind)) → valueAdd F v w = none)
    ∧ (∀ v w, (v.kind, w.kind) ∉
          ([(.float, .float), (.float, .int), (.int, .float), (.int, .int)] :
            List (VKind × VKind)) → valueSub F v w = none)
    ∧ (∀ v w, (v.kind, w.kind) ∉
          ([(.float, .float), (.float, .int), (.int, .float), (.int, .int),
            (.str, .int)] : List (VKind × VKind)) → valueMul F v w = none)
    ∧ (∀ v w, (v.kind, w.kind) ∉
          ([(.float, .float), (.float, .int), (.int, .float), (.int, .int),
            (.str, .int)] : List (VKind × VKind)) → valueDiv F v w = none) := by
  refine ⟨fun a b => rfl, fun a b => rfl, fun a b => rfl, fun a b => rfl, ?_, fun s t => rfl,
    ?_, ?_, ?_, ?_, ?_, ?_, ?_⟩
  · intro f hf
    simp only [List.mem_cons, List.mem_singleton, List.not_mem_nil, or_false] at hf
    rcases hf with rfl | rfl | rfl | rfl <;>
      exact ⟨fun x y => ⟨_, rfl⟩, fun x b => ⟨_, rfl⟩, fun a y => ⟨_, rfl⟩⟩
  · intro s k hk0 hk31
    have hcast : usizeOfI32 k = k.toNat := by
      unfold usizeOfI32
      have : k.emod (2 ^ 64) = k := Int.emod_eq_of_lt hk0 (by omega)
      rw [this]
    simp [valueMul, hcast]
  · intro s k c hk1 hk31 hget
    have hcast : usizeOfI32 k = k.toNat := by
      unfold usizeOfI32
      have : k.emod (2 ^ 64) = k := Int.emod_eq_of_lt (by omega) (by omega)
      rw [this]
    have hsub : usizeSub1 k.toNat = k.toNat - 1 := by
      unfold usizeSub1
      have h1 : 1 ≤ k.toNat := by omega
      have h2 : k.toNat < 2 ^ 64 := by omega
      omega
    simp [valueDiv, hcast, hsub, hget]
  · intro s k hk1 hk31 hget
    have hcast : usizeOfI32 k = k.toNat := by
      unfold usizeOfI32
      have : k.emod (2 ^ 64) = k := Int.emod_eq_of_lt (by omega) (by omega)
      rw [this]
    have hsub : usizeSub1 k.toNat = k.toNat - 1 := by
      unfold usizeSub1
      have h1 : 1 ≤ k.toNat := by omega
      have h2 : k.toNat < 2 ^ 64 := by omega
      omega
    simp [valueDiv, hcast, hsub, hget]
  · intro v w h
    cases v <;> cases w <;> simp_all [Value.kind, valueAdd]
  · intro v w h
    cases v <;> cases w <;> simp_all [Value.kind, valueSub]
  · intro v w h
    cases v <;> cases w <;> simp_all [Value.kind, valueMul]
  · intro v w h
    cases v <;> cases w <;> simp_all [Value.kind, valueDiv]

/-- C2 counterexample to the claim as stated: String÷Integer is not an
invalid combination — `"ab" ÷ 1` succeeds, both at the `impl Div` level and
through the interpreter (tokens of source `"ab" 1 /`), yielding the
1-Based first character `"a"`. -/
theorem c2_string_div_succeeds :
    valueDiv trivFloat (.String ['a', 'b']) (.Integer 1) = some (.String ['a'])
    ∧ execute trivFloat [] 3 [Token.mk (.Op .Divide) ⟨1, 8⟩]
        [.Integer 1, .String ['a', 'b']] [] = .ok [.String ['a']] [] :=
  ⟨rfl, rfl⟩

/-- Witness for the hypothesis-bearing parts of the C2 theorem at concrete
inputs. -/
theorem c2_arith_coercion_witness :
    valueMul trivFloat (.String ['a', 'b']) (.Integer 3) =
      some (.String (strRepeat ['a', 'b'] ((3 : Int).toNat)))
    ∧ valueDiv trivFloat (.String ['a', 'b']) (.Integer 2) = some (.String ['b'])
    ∧ valueDiv trivFloat (.String ['a', 'b']) (.Integer 3) = none
    ∧ valueAdd trivFloat (.Boolean true) (.Integer 0) = none
    ∧ valueSub trivFloat (.String ['a']) (.String ['b']) = none
    ∧ valueMul trivFloat (.Integer 0) (.String ['a']) = none
    ∧ valueDiv trivFloat (.Block []) (.Tag ['t']) = none
    ∧ (∃ z, valueAdd trivFloat (.Float 5) (.Integer 7) = some (.Float z)) := by
  obtain ⟨h1, h2, h3, h4, h5, h6, h7, h8, h9, h10, h11, h12, h13⟩ := c2_arith_coercion trivFloat
  exact ⟨h7 _ 3 (by norm_num) (by norm_num), h8 _ 2 'b' (by norm_num) (by norm_num) rfl,
    h9 _ 3 (by norm_num) (by norm_num) rfl, h10 _ _ (by decide), h11 _ _ (by decide),
    h12 _ _ (by decide), h13 _ _ (by decide), (h5 (valueAdd trivFloat) (by simp)).2.1 5 7⟩

/-- C1: the Add and Multiply arms of the interpreter compute
`val1 <op> val2` — top-of-stack first — so for source `A B <op>` they
compute `B <op> A`, not `A <op> B`: `"hello " "world" + print` prints
`worldhello `, string-first repetition `"ab" 2 *` is an operator error, and
it is integer-first `2 "ab" *` that repeats.  (Only Subtract and Divide use
`val2 <op> val1` as the claim and the crate documentation state.) -/
theorem c1_left_to_right_order_bug :
    runString trivFloat 64 "\"hello \" \"world\" + print".data =
      .executed (.ok [] [Value.String "worldhello ".data])
    ∧ runString trivFloat 64 "\"ab\" 2 *".data =
      .executed (.err (.OperatorInvalidValues ⟨1, 8⟩ '*') [] [])
    ∧ runString trivFloat 64 "2 \"ab\" *".data =
      .executed (.ok [Value.String "abab".data] []) :=
  ⟨rfl, rfl, rfl⟩

/-- C6: PICK pops a 1-based bottom-counted Integer index and pushes a copy of
the indexed element (index 1 on stack `(10 20 30)` gives `(10 20 30 10)`,
index 4 is a `KeywordInvalidValues` naming PICK); but for an index below 1
the error names ROLL — the PICK arm's bounds check returns the ROLL keyword
(src/vm.rs:355), contradicting the claim. -/
theorem c6_pick_semantics_and_keyword_slip :
    execute trivFloat [] 3 [Token.mk (.Keyword .PICK) ⟨1, 1⟩]
      [.Integer 1, .Integer 30, .Integer 20, .Integer 10] [] =
      .ok [.Integer 10, .Integer 30, .Integer 20, .Integer 10] []
    ∧ execute trivFloat [] 3 [Token.mk (.Keyword .PICK) ⟨1, 1⟩]
      [.Integer 4, .Integer 30, .Integer 20, .Integer 10] [] =
      .err (.KeywordInvalidValues ⟨1, 1⟩ .PICK) [.Integer 30, .Integer 20, .Integer 10] []
    ∧ execute trivFloat [] 3 [Token.mk (.Keyword .PICK) ⟨1, 1⟩]
      [.Boolean true, .Integer 10] [] =
      .err (.KeywordInvalidValues ⟨1, 1⟩ .PICK) [.Integer 10] []
    ∧ execute trivFloat [] 3 [Token.mk (.Keyword .PICK) ⟨1, 1⟩] [] [] =
      .err (.KeywordInvalidValues ⟨1, 1⟩ .PICK) [] []
    ∧ execute trivFloat [] 3 [Token.mk (.Keyword .PICK) ⟨1, 1⟩]
      [.Integer 0, .Integer 30, .Integer 20, .Integer 10] [] =
      .err (.KeywordInvalidValues ⟨1, 1⟩ .ROLL) [.Integer 30, .Integer 20, .Integer 10] [] :=
  ⟨rfl, rfl, rfl, rfl, rfl⟩

/-- C7: LOOP pops one Block, then repeatedly pops a value that must be a
Boolean and, while it is true, runs the block on the same stack: with a true
condition under the block, a body run that leaves false on top is executed
exactly once (the result is exactly the one-run stack minus the popped
false); a non-Boolean or missing condition, a non-Block top, or an empty
stack is a `KeywordInvalidValues` for LOOP. -/
theorem c7_loop_runs_body_once :
    (∀ (F : FloatSem) (fns : FnTable) (g : Nat) (pos : TokenPosition) (b : List Token)
        (s s' out out' : List Value),
        execute F fns (g + 1) b s out = .ok (.Boolean false :: s') out' →
        execute F fns (g + 3) [Token.mk (.Keyword .LOOP) pos] (.Block b :: .Boolean true :: s) out =
          .ok s' out')
    ∧ (∀ (F : FloatSem) (fns : FnTable) (g : Nat) (pos : TokenPosition) (b : List Token)
        (v : Value) (s out : List Value), v.kind ≠ .bool →
        execute F fns (g + 2) [Token.mk (.Keyword .LOOP) pos] (.Block b :: v :: s) out =
          .err (.KeywordInvalidValues pos .LOOP) s out)
    ∧ (∀ (F : FloatSem) (fns : FnTable) (g : Nat) (pos : TokenPosition) (b : List Token)
        (out : List Value),
        execute F fns (g + 2) [Token.mk (.Keyword .LOOP) pos] [.Block b] out =
          .err (.KeywordInvalidValues pos .LOOP) [] out)
    ∧ (∀ (F : FloatSem) (fns : FnTable) (g : Nat) (pos : TokenPosition) (v : Value)
        (s out : List Value), v.kind ≠ .block →
        execute F fns (g + 1) [Token.mk (.Keyword .LOOP) pos] (v :: s) out =
          .err (.KeywordInvalidValues pos .LOOP) s out)
    ∧ (∀ (F : FloatSem) (fns : FnTable) (g : Nat) (pos : TokenPosition) (out : List Value),
        execute F fns (g + 1) [Token.mk (.Keyword .LOOP) pos] [] out =
          .err (.KeywordInvalidValues pos .LOOP) [] out) := by
  refine ⟨?_, ?_, ?_, ?_, ?_⟩
  · intro F fns g pos b s s' out out' h
    show execute F fns (g + 2 + 1) _ _ _ = _
    simp only [execute, Token.kind]
    show (match runLoop F fns b pos (g + 2) (.Boolean true :: s) out with
          | .ok s2 out2 => execute F fns (g + 2) [] s2 out2
          | r => r) = _
    show (match (match execute F fns (g + 1) b s out with
                 | .ok s2 out2 => runLoop F fns b pos (g + 1) s2 out2
                 | r => r) with
          | .ok s2 out2 => execute F fns (g + 2) [] s2 out2
          | r => r) = _
    rw [h]
    show (match runLoop F fns b pos (g + 1) (.Boolean false :: s') out' with
          | .ok s2 out2 => execute F fns (g + 2) [] s2 out2
          | r => r) = _
    rfl
  · intro F fns g pos b v s out hv
    cases v <;> simp_all [execute, runLoop, Token.kind, Token.pos, Value.kind]
  · intro F fns g pos b out
    simp [execute, runLoop, Token.kind, Token.pos]
  · intro F fns g pos v s out hv
    cases v <;> simp_all [execute, Token.kind, Token.pos, Value.kind]
  · intro F fns g pos out
    simp [execute, Token.kind, Token.pos]

/-- Witness for the C7 theorem at concrete inputs. -/
theorem c7_loop_runs_body_once_witness :
    execute trivFloat [] 3 [Token.mk (.Keyword .LOOP) ⟨1, 1⟩]
      [.Block [Token.mk (.Literal (.Boolean false)) ⟨1, 1⟩], .Boolean true, .Integer 7] [] =
      .ok [.Integer 7] []
    ∧ execute trivFloat [] 2 [Token.mk (.Keyword .LOOP) ⟨1, 1⟩]
        [.Block [], .Integer 5] [] = .err (.KeywordInvalidValues ⟨1, 1⟩ .LOOP) [] []
    ∧ execute trivFloat [] 1 [Token.mk (.Keyword .LOOP) ⟨1, 1⟩]
        [.Integer 5] [] = .err (.KeywordInvalidValues ⟨1, 1⟩ .LOOP) [] [] :=
  ⟨(c7_loop_runs_body_once.1 trivFloat [] 0 ⟨1, 1⟩ _ [.Integer 7] [.Integer 7] [] [] rfl),
   (c7_loop_runs_body_once.2.1 trivFloat [] 0 ⟨1, 1⟩ [] (.Integer 5) [] [] (by decide)),
   (c7_loop_runs_body_once.2.2.2.1 trivFloat [] 0 ⟨1, 1⟩ (.Integer 5) [] [] (by decide))⟩

/-- C8 (amended): every operand-taking keyword except DROP errors with
`KeywordInvalidValues` on underflow (DUPLICATE, SWAP, ROT, NROT, OVER, TUCK,
PICK, ROLL, GATE, LOOP, TYPE); DROP on an empty stack is — like PRINT — a
silent success: its arm discards the `pop()` result, so the table entry
`(a) -- ()` does not make an empty stack an error. -/
theorem c8_keyword_underflow :
    (∀ (F : FloatSem) (fns : FnTable) (g : Nat) (pos : TokenPosition) (out : List Value),
        execute F fns (g + 1) [Token.mk (.Keyword .DUPLICATE) pos] [] out =
          .err (.KeywordInvalidValues pos .DUPLICATE) [] out)
    ∧ (∀ (F : FloatSem) (fns : FnTable) (g : Nat) (pos : TokenPosition) (out : List Value)
        (v : Value) (s : List Value), s = [] ∨ s = [v] →
        execute F fns (g + 1) [Token.mk (.Keyword .SWAP) pos] s out =
          .err (.KeywordInvalidValues pos .SWAP) s out)
    ∧ (∀ (F : FloatSem) (fns : FnTable) (g : Nat) (pos : TokenPosition) (out : List Value)
        (v w : Value) (s : List Value), s = [] ∨ s = [v] ∨ s = [v, w] →
        execute F fns (g + 1) [Token.mk (.Keyword .ROT) pos] s out =
          .err (.KeywordInvalidValues pos .ROT) s out)
    ∧ (∀ (F : FloatSem) (fns : FnTable) (g : Nat) (pos : TokenPosition) (out : List Value)
        (v w : Value) (s : List Value), s = [] ∨ s = [v] ∨ s = [v, w] →
        execute F fns (g + 1) [Token.mk (.Keyword .NROT) pos] s out =
          .err (.KeywordInvalidValues pos .NROT) s out)
    ∧ (∀ (F : FloatSem) (fns : FnTable) (g : Nat) (pos : TokenPosition) (out : List Value)
        (v : Value) (s : List Value), s = [] ∨ s = [v] →
        execute F fns (g + 1) [Token.mk (.Keyword .OVER) pos] s out =
          .err (.KeywordInvalidValues pos .OVER) s out)
    ∧ (∀ (F : FloatSem) (fns : FnTable) (g : Nat) (pos : TokenPosition) (out : List Value)
        (v : Value) (s : List Value), s = [] ∨ s = [v] →
        execute F fns (g + 1) [Token.mk (.Keyword .TUCK) pos] s out =
          .err (.KeywordInvalidValues pos .TUCK) s out)
    ∧ (∀ (F : FloatSem) (fns : FnTable) (g : Nat) (pos : TokenPosition) (out : List Value),
        execute F fns (g + 1) [Token.mk (.Keyword .PICK) pos] [] out =
          .err (.KeywordInvalidValues pos .PICK) [] out)
    ∧ (∀ (F : FloatSem) (fns : FnTable) (g : Nat) (pos : TokenPosition) (out : List Value),
        execute F fns (g + 1) [Token.mk (.Keyword .ROLL) pos] [] out =
          .err (.KeywordInvalidValues pos .ROLL) [] out)
    ∧ (∀ (F : FloatSem) (fns : FnTable) (g : Nat) (pos : TokenPosition) (out : List Value)
        (b : List Token) (s : List Value), s = [] ∨ s = [.Block b] →
        execute F fns (g + 1) [Token.mk (.Keyword .GATE) pos] s out =
          .err (.KeywordInvalidValues pos .GATE) [] out)
    ∧ (∀ (F : FloatSem) (fns : FnTable) (g : Nat) (pos : TokenPosition) (out : List Value),
        execute F fns (g + 1) [Token.mk (.Keyword .LOOP) pos] [] out =
          .err (.KeywordInvalidValues pos .LOOP) [] out)
    ∧ (∀ (F : FloatSem) (fns : FnTable) (g : Nat) (pos : TokenPosition) (out : List Value),
        execute F fns (g + 1) [Token.mk (.Keyword .TYPE) pos] [] out =
          .err (.KeywordInvalidValues pos .TYPE) [] out)
    ∧ (∀ (F : FloatSem) (fns : FnTable) (g : Nat) (pos : TokenPosition) (out : List Value),
        execute F fns (g + 1) [Token.mk (.Keyword .DROP) pos] [] out = .ok [] out)
    ∧ (∀ (F : FloatSem) (fns : FnTable) (g : Nat) (pos : TokenPosition) (out : List Value)
        (v : Value) (s : List Value),
        execute F fns (g + 1) [Token.mk (.Keyword .DROP) pos] (v :: s) out = .ok s out)
    ∧ (∀ (F : FloatSem) (fns : FnTable) (g : Nat) (pos : TokenPosition) (out : List Value),
        execute F fns (g + 1) [Token.mk (.Keyword .PRINT) pos] [] out =
          .ok [] (out ++ [.String []])) := by
  refine ⟨?_, ?_, ?_, ?_, ?_, ?_, ?_, ?_, ?_, ?_, ?_, ?_, ?_, ?_⟩ <;> intros
  all_goals try casesm* _ ∨ _
  all_goals subst_vars
  all_goals simp [execute, runLoop, Token.kind, Token.pos]

/-- C4 (amended): the operators `+ - / * = & | $` and the two-character
forms `!= <= >=` must be immediately followed by whitespace or end of input,
else tokenization fails with `UnexpectedSymbol` naming the offending
character; but the single-character operators `! < >` (when not followed by
`=`) are emitted without any separator check.  `1 <=2` fails with
UnexpectedSymbol '2' at (1,5); `1 2 <=` tokenizes and executes to Boolean
true. -/
theorem c4_operator_separators :
    (∀ (F : FloatSem) (g : Nat) (pos : TokenPosition) (fns : FnTable) (acc : List Token)
        (c : Char) (cs : List Char), rustWhitespace c = false →
        tokenize F (g + 1) ('+' :: c :: cs) pos fns acc =
          .err (.UnexpectedSymbol ⟨pos.row, pos.col + 1⟩ c)
        ∧ tokenize F (g + 1) ('/' :: c :: cs) pos fns acc =
          .err (.UnexpectedSymbol ⟨pos.row, pos.col + 1⟩ c)
        ∧ tokenize F (g + 1) ('*' :: c :: cs) pos fns acc =
          .err (.UnexpectedSymbol ⟨pos.row, pos.col + 1⟩ c)
        ∧ tokenize F (g + 1) ('=' :: c :: cs) pos fns acc =
          .err (.UnexpectedSymbol ⟨pos.row, pos.col + 1⟩ c)
        ∧ tokenize F (g + 1) ('&' :: c :: cs) pos fns acc =
          .err (.UnexpectedSymbol ⟨pos.row, pos.col + 1⟩ c)
        ∧ tokenize F (g + 1) ('|' :: c :: cs) pos fns acc =
          .err (.UnexpectedSymbol ⟨pos.row, pos.col + 1⟩ c)
        ∧ tokenize F (g + 1) ('$' :: c :: cs) pos fns acc =
          .err (.UnexpectedSymbol ⟨pos.row, pos.col + 1⟩ c))
    ∧ (∀ (F : FloatSem) (g : Nat) (pos : TokenPosition) (fns : FnTable) (acc : List Token)
        (c : Char) (cs : List Char),
        rustWhitespace c = false → isAsciiDigit c = false → c ≠ '.' →
        tokenize F (g + 1) ('-' :: c :: cs) pos fns acc =
          .err (.UnexpectedSymbol ⟨pos.row, pos.col + 1⟩ c))
    ∧ (∀ (F : FloatSem) (g : Nat) (pos : TokenPosition) (fns : FnTable) (acc : List Token)
        (c : Char) (cs : List Char), rustWhitespace c = false →
        tokenize F (g + 1) ('!' :: '=' :: c :: cs) pos fns acc =
          .err (.UnexpectedSymbol ⟨pos.row, pos.col + 2⟩ c)
        ∧ tokenize F (g + 1) ('<' :: '=' :: c :: cs) pos fns acc =
          .err (.UnexpectedSymbol ⟨pos.row, pos.col + 2⟩ c)
        ∧ tokenize F (g + 1) ('>' :: '=' :: c :: cs) pos fns acc =
          .err (.UnexpectedSymbol ⟨pos.row, pos.col + 2⟩ c))
    ∧ (∀ (F : FloatSem) (g : Nat) (pos : TokenPosition) (fns : FnTable) (acc : List Token)
        (c : Char) (cs : List Char), c ≠ '=' →
        tokenize F (g + 1) ('!' :: c :: cs) pos fns acc =
          tokenize F g (c :: cs) ⟨pos.row, pos.col + 1⟩ fns
            (acc ++ [Token.mk (.Op .Not) pos])
        ∧ tokenize F (g + 1) ('<' :: c :: cs) pos fns acc =
          tokenize F g (c :: cs) ⟨pos.row, pos.col + 1⟩ fns
            (acc ++ [Token.mk (.Op .Lesser) pos])
        ∧ tokenize F (g + 1) ('>' :: c :: cs) pos fns acc =
          tokenize F g (c :: cs) ⟨pos.row, pos.col + 1⟩ fns
            (acc ++ [Token.mk (.Op .Greater) pos]))
    ∧ tokenize trivFloat 30 "1 <=2".data ⟨1, 1⟩ [] [] = .err (.UnexpectedSymbol ⟨1, 5⟩ '2')
    ∧ runString trivFloat 30 "1 2 <=".data = .executed (.ok [.Boolean true] []) := by
  refine ⟨?_, ?_, ?_, ?_, rfl, rfl⟩
  · intro F g pos fns acc c cs hw
    refine ⟨?_, ?_, ?_, ?_, ?_, ?_, ?_⟩
    · have h : tokenize F (g + 1) ('+' :: c :: cs) pos fns acc =
          if !rustWhitespace c then .err (.UnexpectedSymbol ⟨pos.row, pos.col + 1⟩ c)
          else tokenize F g (c :: cs) ⟨pos.row, pos.col + 1⟩ fns
            (acc ++ [Token.mk (.Op .Add) pos]) := rfl
      rw [h, hw]; rfl
    · have h : tokenize F (g + 1) ('/' :: c :: cs) pos fns acc =
          if !rustWhitespace c then .err (.UnexpectedSymbol ⟨pos.row, pos.col + 1⟩ c)
          else tokenize F g (c :: cs) ⟨pos.row, pos.col + 1⟩ fns
            (acc ++ [Token.mk (.Op .Divide) pos]) := rfl
      rw [h, hw]; rfl
    · have h : tokenize F (g + 1) ('*' :: c :: cs) pos fns acc =
          if !rustWhitespace c then .err (.UnexpectedSymbol ⟨pos.row, pos.col + 1⟩ c)
          else tokenize F g (c :: cs) ⟨pos.row, pos.col + 1⟩ fns
            (acc ++ [Token.mk (.Op .Multiply) pos]) := rfl
      rw [h, hw]; rfl
    · have h : tokenize F (g + 1) ('=' :: c :: cs) pos fns acc =
          if !rustWhitespace c then .err (.UnexpectedSymbol ⟨pos.row, pos.col + 1⟩ c)
          else tokenize F g (c :: cs) ⟨pos.row, pos.col + 1⟩ fns
            (acc ++ [Token.mk (.Op .Equal) pos]) := rfl
      rw [h, hw]; rfl
    · have h : tokenize F (g + 1) ('&' :: c :: cs) pos fns acc =
          if !rustWhitespace c then .err (.UnexpectedSymbol ⟨pos.row, pos.col + 1⟩ c)
          else tokenize F g (c :: cs) ⟨pos.row, pos.col + 1⟩ fns
            (acc ++ [Token.mk (.Op .And) pos]) := rfl
      rw [h, hw]; rfl
    · have h : tokenize F (g + 1) ('|' :: c :: cs) pos fns acc =
          if !rustWhitespace c then .err (.UnexpectedSymbol ⟨pos.row, pos.col + 1⟩ c)
          else tokenize F g (c :: cs) ⟨pos.row, pos.col + 1⟩ fns
            (acc ++ [Token.mk (.Op .Or) pos]) := rfl
      rw [h, hw]; rfl
    · have h : tokenize F (g + 1) ('$' :: c :: cs) pos fns acc =
          if !rustWhitespace c then .err (.UnexpectedSymbol ⟨pos.row, pos.col + 1⟩ c)
          else tokenize F g (c :: cs) ⟨pos.row, pos.col + 1⟩ fns
            (acc ++ [Token.mk (.Op .Run) pos]) := rfl
      rw [h, hw]; rfl
  · intro F g pos fns acc c cs hw hd hdot
    have h : tokenize F (g + 1) ('-' :: c :: cs) pos fns acc =
        if (isAsciiDigit c || c = '.') then
          (match numberToken F pos '-' (c :: cs) ⟨pos.row, pos.col + 1⟩ with
           | .error e => TokOut.err e
           | .ok (rem, posN, tok) => tokenize F g rem posN fns (acc ++ [tok]))
        else if !rustWhitespace c then .err (.UnexpectedSymbol ⟨pos.row, pos.col + 1⟩ c)
        else tokenize F g (c :: cs) ⟨pos.row, pos.col + 1⟩ fns
          (acc ++ [Token.mk (.Op .Subtract) pos]) := rfl
    have hcond : (isAsciiDigit c || c = '.') = false := by simp [hd, hdot]
    rw [h, hcond, hw]
    rfl
  · intro F g pos fns acc c cs hw
    refine ⟨?_, ?_, ?_⟩
    · have h : tokenize F (g + 1) ('!' :: '=' :: c :: cs) pos fns acc =
          if !rustWhitespace c then .err (.UnexpectedSymbol ⟨pos.row, pos.col + 2⟩ c)
          else tokenize F g (c :: cs) ⟨pos.row, pos.col + 1⟩ fns
            (acc ++ [Token.mk (.Op .NotEqual) ⟨pos.row, pos.col + 1⟩]) := rfl
      rw [h, hw]; rfl
    · have h : tokenize F (g + 1) ('<' :: '=' :: c :: cs) pos fns acc =
          if !rustWhitespace c then .err (.UnexpectedSymbol ⟨pos.row, pos.col + 2⟩ c)
          else tokenize F g (c :: cs) ⟨pos.row, pos.col + 1⟩ fns
            (acc ++ [Token.mk (.Op .LesserEqual) ⟨pos.row, pos.col + 1⟩]) := rfl
      rw [h, hw]; rfl
    · have h : tokenize F (g + 1) ('>' :: '=' :: c :: cs) pos fns acc =
          if !rustWhitespace c then .err (.UnexpectedSymbol ⟨pos.row, pos.col + 2⟩ c)
          else tokenize F g (c :: cs) ⟨pos.row, pos.col + 1⟩ fns
            (acc ++ [Token.mk (.Op .GreaterEqual) ⟨pos.row, pos.col + 1⟩]) := rfl
      rw [h, hw]; rfl
  · intro F g pos fns acc c cs hne
    refine ⟨?_, ?_, ?_⟩
    · have h : tokenize F (g + 1) ('!' :: c :: cs) pos fns acc =
          if c = '=' then
            (if !rustWhitespace (cs.headD ' ') then
              .err (.UnexpectedSymbol ⟨pos.row, pos.col + 2⟩ (cs.headD ' '))
            else tokenize F g cs ⟨pos.row, pos.col + 1⟩ fns
              (acc ++ [Token.mk (.Op .NotEqual) ⟨pos.row, pos.col + 1⟩]))
          else tokenize F g (c :: cs) ⟨pos.row, pos.col + 1⟩ fns
            (acc ++ [Token.mk (.Op .Not) pos]) := rfl
      rw [h, if_neg hne]
    · have h : tokenize F (g + 1) ('<' :: c :: cs) pos fns acc =
          if c = '=' then
            (if !rustWhitespace (cs.headD ' ') then
              .err (.UnexpectedSymbol ⟨pos.row, pos.col + 2⟩ (cs.headD ' '))
            else tokenize F g cs ⟨pos.row, pos.col + 1⟩ fns
              (acc ++ [Token.mk (.Op .LesserEqual) ⟨pos.row, pos.col + 1⟩]))
          else tokenize F g (c :: cs) ⟨pos.row, pos.col + 1⟩ fns
            (acc ++ [Token.mk (.Op .Lesser) pos]) := rfl
      rw [h, if_neg hne]
    · have h : tokenize F (g + 1) ('>' :: c :: cs) pos fns acc =
          if c = '=' then
            (if !rustWhitespace (cs.headD ' ') then
              .err (.UnexpectedSymbol ⟨pos.row, pos.col + 2⟩ (cs.headD ' '))
            else tokenize F g cs ⟨pos.row, pos.col + 1⟩ fns
              (acc ++ [Token.mk (.Op .GreaterEqual) ⟨pos.row, pos.col + 1⟩]))
          else tokenize F g (c :: cs) ⟨pos.row, pos.col + 1⟩ fns
            (acc ++ [Token.mk (.Op .Greater) pos]) := rfl
      rw [h, if_neg hne]

/-- C4 counterexample to the claim as stated: `<` immediately followed by a
digit is accepted — `<5` tokenizes to the Lesser operator and the numeral 5
with no error, though the claim requires every operator (including `<`) to
be followed by whitespace or end of input. -/
theorem c4_single_lt_no_separator :
    tokenize trivFloat 5 "<5".data ⟨1, 1⟩ [] [] =
      .ok [Token.mk (.Op .Lesser) ⟨1, 1⟩, Token.mk (.Literal (.Integer 5)) ⟨1, 2⟩] [] := rfl

/-- Witness for the hypothesis-bearing parts of the C4 theorem. -/
theorem c4_operator_separators_witness :
    tokenize trivFloat 3 ['+', 'x'] ⟨1, 1⟩ [] [] = .err (.UnexpectedSymbol ⟨1, 2⟩ 'x')
    ∧ tokenize trivFloat 3 ['-', 'x'] ⟨1, 1⟩ [] [] = .err (.UnexpectedSymbol ⟨1, 2⟩ 'x')
    ∧ tokenize trivFloat 3 ['<', '=', '2'] ⟨1, 1⟩ [] [] = .err (.UnexpectedSymbol ⟨1, 3⟩ '2')
    ∧ tokenize trivFloat 3 ['>', '3'] ⟨1, 1⟩ [] [] =
        tokenize trivFloat 2 ['3'] ⟨1, 2⟩ [] [Token.mk (.Op .Greater) ⟨1, 1⟩] :=
  ⟨(c4_operator_separators.1 trivFloat 2 ⟨1, 1⟩ [] [] 'x' [] (by decide)).1,
   c4_operator_separators.2.1 trivFloat 2 ⟨1, 1⟩ [] [] 'x' [] (by decide) (by decide) (by decide),
   (c4_operator_separators.2.2.1 trivFloat 2 ⟨1, 1⟩ [] [] '2' [] (by decide)).2.1,
   (c4_operator_separators.2.2.2.1 trivFloat 2 ⟨1, 1⟩ [] [] '3' [] (by decide)).2.2⟩

/-- C9 (amended): the main tokenizer loop and the block-body scanner track
newlines (row + 1, column reset to 1, respectively 0); but the comment loop
and the string loop advance only the column for every consumed character —
a newline inside a comment or a string literal does not increment the row,
so positions after such a newline do not match the source text.  The
malformed numeral `1.2.3` fails with InvalidNumberFormat at (1,4), the
second `.`. -/
theorem c9_newline_position_tracking :
    (∀ (F : FloatSem) (g : Nat) (cs : List Char) (pos : TokenPosition) (fns : FnTable)
        (acc : List Token),
        tokenize F (g + 1) ('\n' :: cs) pos fns acc =
          tokenize F g cs ⟨pos.row + 1, 1⟩ fns acc)
    ∧ (∀ (cs : List Char) (pos : TokenPosition),
        skipComment ('\n' :: cs) pos = skipComment cs ⟨pos.row, pos.col + 1⟩)
    ∧ (∀ (sp : TokenPosition) (c2 : Char) (cs : List Char) (pos : TokenPosition)
        (acc : List Char),
        scanString sp ('\n' :: c2 :: cs) pos acc =
          scanString sp (c2 :: cs) ⟨pos.row, pos.col + 1⟩ (acc ++ ['\n']))
    ∧ (∀ (sp : TokenPosition) (pos : TokenPosition) (acc : List Char),
        scanString sp ['\n'] pos acc =
          scanString sp [] ⟨pos.row, pos.col + 1⟩ (acc ++ ['\n']))
    ∧ (∀ (c2 : Char) (cs : List Char) (pos : TokenPosition) (b : Nat) (acc : List Char),
        scanBlock ('\n' :: c2 :: cs) pos b acc =
          scanBlock (c2 :: cs) ⟨pos.row + 1, 0⟩ b (acc ++ ['\n']))
    ∧ (∀ (pos : TokenPosition) (b : Nat) (acc : List Char),
        scanBlock ['\n'] pos b acc = scanBlock [] ⟨pos.row + 1, 0⟩ b (acc ++ ['\n']))
    ∧ tokenize trivFloat 10 "1.2.3".data ⟨1, 1⟩ [] [] = .err (.InvalidNumberFormat ⟨1, 4⟩) :=
  ⟨fun _ _ _ _ _ _ => rfl, fun _ _ => rfl, fun _ _ _ _ _ => rfl, fun _ _ _ => rfl,
   fun _ _ _ _ _ => rfl, fun _ _ _ => rfl, rfl⟩

/-- C9 counterexample to the claim as stated: a newline consumed inside a
comment does not increment the row — tokenizing ";\n;x" reports the unknown
identifier `x` at row 1, column 4, although `x` sits on line 2 of the
source. -/
theorem c9_comment_newline_not_counted :
    tokenize trivFloat 10 ";\n;x".data ⟨1, 1⟩ [] [] =
      .err (.UnknownIdentifier ⟨1, 4⟩ "x".data) := rfl

/-- C8 counterexample to the claim as stated: DROP on an empty stack — a
keyword whose table entry takes `(a)` to `()` — succeeds silently instead of
yielding `KeywordInvalidValues`. -/
theorem c8_drop_empty_no_error :
    execute trivFloat [] 2 [Token.mk (.Keyword .DROP) ⟨1, 1⟩] [] [] = .ok [] [] := rfl

/-- Witness for the hypothesis-bearing parts of the C8 theorem. -/
theorem c8_keyword_underflow_witness :
    execute trivFloat [] 2 [Token.mk (.Keyword .SWAP) ⟨1, 1⟩] [.Integer 5] [] =
      .err (.KeywordInvalidValues ⟨1, 1⟩ .SWAP) [.Integer 5] []
    ∧ execute trivFloat [] 2 [Token.mk (.Keyword .ROT) ⟨1, 1⟩] [.Integer 5, .Integer 6] [] =
      .err (.KeywordInvalidValues ⟨1, 1⟩ .ROT) [.Integer 5, .Integer 6] []
    ∧ execute trivFloat [] 2 [Token.mk (.Keyword .NROT) ⟨1, 1⟩] [] [] =
      .err (.KeywordInvalidValues ⟨1, 1⟩ .NROT) [] []
    ∧ execute trivFloat [] 2 [Token.mk (.Keyword .OVER) ⟨1, 1⟩] [.Integer 5] [] =
      .err (.KeywordInvalidValues ⟨1, 1⟩ .OVER) [.Integer 5] []
    ∧ execute trivFloat [] 2 [Token.mk (.Keyword .TUCK) ⟨1, 1⟩] [.Integer 5] [] =
      .err (.KeywordInvalidValues ⟨1, 1⟩ .TUCK) [.Integer 5] []
    ∧ execute trivFloat [] 2 [Token.mk (.Keyword .GATE) ⟨1, 1⟩] [.Block []] [] =
      .err (.KeywordInvalidValues ⟨1, 1⟩ .GATE) [] [] := by
  obtain ⟨h1, h2, h3, h4, h5, h6, h7, h8, h9, h10, h11, h12, h13, h14⟩ := c8_keyword_underflow
  exact ⟨h2 trivFloat [] 1 ⟨1, 1⟩ [] (.Integer 5) _ (Or.inr rfl),
    h3 trivFloat [] 1 ⟨1, 1⟩ [] (.Integer 5) (.Integer 6) _ (Or.inr (Or.inr rfl)),
    h4 trivFloat [] 1 ⟨1, 1⟩ [] (.Integer 5) (.Integer 6) _ (Or.inl rfl),
    h5 trivFloat [] 1 ⟨1, 1⟩ [] (.Integer 5) _ (Or.inr rfl),
    h6 trivFloat [] 1 ⟨1, 1⟩ [] (.Integer 5) _ (Or.inr rfl),
    h9 trivFloat [] 1 ⟨1, 1⟩ [] [] _ (Or.inr rfl)⟩

/-- C3: for every Value containing no Function variant whose u32-cast
quantities are in range (i32 payloads, f32 bit patterns, string byte lengths,
block token counts and token positions below 2^32 — always the case for the
values the Rust program builds from i32/f32/usize-indexed sources that fit),
`from_bytes (to_bytes v)` succeeds, reconstructs a value equal to `v`, and
reports exactly `(to_bytes v).length` bytes consumed.  Without the length
bounds the claim fails: see the 2^32-byte-string counterexample. -/
theorem c3_serialization_roundtrip (v : Value) (hs : v.sval = true) (hf : v.funFree = true) :
    Value.fromBytes v.toBytes = .ok (v, v.toBytes.length) := by
  have h := value_round v hs hf []
  rwa [List.append_nil] at h

theorem c3_serialization_roundtrip_witness :
    Value.sval (Value.Block [Token.mk (TokenType.Literal (Value.Integer 7)) ⟨1, 2⟩,
        Token.mk (TokenType.Keyword Keyword.PRINT) ⟨1, 4⟩]) = true ∧
    Value.funFree (Value.Block [Token.mk (TokenType.Literal (Value.Integer 7)) ⟨1, 2⟩,
        Token.mk (TokenType.Keyword Keyword.PRINT) ⟨1, 4⟩]) = true ∧
    Value.fromBytes (Value.toBytes (Value.Block
        [Token.mk (TokenType.Literal (Value.Integer 7)) ⟨1, 2⟩,
         Token.mk (TokenType.Keyword Keyword.PRINT) ⟨1, 4⟩]))
      = .ok (Value.Block [Token.mk (TokenType.Literal (Value.Integer 7)) ⟨1, 2⟩,
          Token.mk (TokenType.Keyword Keyword.PRINT) ⟨1, 4⟩],
          (Value.toBytes (Value.Block [Token.mk (TokenType.Literal (Value.Integer 7)) ⟨1, 2⟩,
            Token.mk (TokenType.Keyword Keyword.PRINT) ⟨1, 4⟩])).length) :=
  ⟨by decide, by decide, c3_serialization_roundtrip _ (by decide) (by decide)⟩

/-- C3 counterexample to the claim as stated: the Function-free String value
of 2^32 `a` characters serializes with its `len() as u32` length prefix
truncated to 0, so `from_bytes (to_bytes v)` returns the empty string with 5
bytes consumed instead of reconstructing `v` (whose encoding is 5 + 2^32
bytes long). -/
theorem c3_length_truncation_counterexample :
    Value.funFree (.String (List.replicate (2 ^ 32) 'a')) = true ∧
    Value.fromBytes (Value.toBytes (.String (List.replicate (2 ^ 32) 'a')))
      = .ok (.String [], 5) ∧
    Value.fromBytes (Value.toBytes (.String (List.replicate (2 ^ 32) 'a')))
      ≠ .ok (.String (List.replicate (2 ^ 32) 'a'),
             (Value.toBytes (.String (List.replicate (2 ^ 32) 'a'))).length) := by
  refine ⟨funFree_string _, fromBytes_toBytes_bigString, ?_⟩
  rw [fromBytes_toBytes_bigString]
  intro h
  have h1 : (Value.String [] : Value) = .String (List.replicate (2 ^ 32) 'a') :=
    congrArg (fun r => match r with | Except.ok (v, _) => v | Except.error _ => .Boolean true) h
  injection h1 with h1x
  have h2 := congrArg List.length h1x
  simp only [List.length_nil, List.length_replicate] at h2
  omega

end Stackathon
